import Mathlib

/-!
Verification development for the trie persistence and orchestration layer of
the assetxchain node (src/node/src/kvdb_hashdb.rs, src/node/src/mpt.rs,
src/node/src/mpt_manager.rs, src/node/src/dataasset.rs).

Shallow embedding conventions:
* Byte strings (`Vec<u8>`, `[u8; 32]`, `H256`, `H160`) are modelled as `List Nat`.
* The physical column store (`kvdb::KeyValueDB`, column 0 only) is a structure
  holding an association list plus two fault switches: `getErr` marks keys whose
  physical `get` returns `Err`, and `writeErr` makes `write(transaction)` fail.
* The external authenticated-trie algorithm (the `trie_db` crate) is out of
  scope of the repository; per the spec it is specified only at its interface
  boundary.  It is modelled here as a single-node authenticated map: the whole
  key/value mapping of one trie version is one content-addressed node, the root
  is the digest of that node, and a mutation session reads the old node, edits
  the mapping, reclaims (removes) the old node through the node store and writes
  the new node.  The distinguished all-zero digest denotes the empty trie.
* The external hash function (Keccak / BlakeTwo256) is modelled as an injective,
  deterministic, content-derived digest that is never all-zero, reflecting the
  collision-freeness the spec assumes of it.
* Rust operations that mutate state through `&self` and may also return an error
  are modelled as functions returning a pair of the `Except` result and the
  post-call state, so that partial mutations before a failure stay observable.
-/

/-- Byte strings. -/
abbrev Bytes := List Nat

/-- First value bound to a key in an association list. -/
def lookupA {κ α : Type} [DecidableEq κ] (l : List (κ × α)) (k : κ) : Option α :=
  (l.find? (fun p => p.1 = k)).map (fun p => p.2)

/-- Bind a key to a value, replacing any previous binding (map semantics of
`HashMap::insert`). -/
def putA {κ α : Type} [DecidableEq κ] (l : List (κ × α)) (k : κ) (v : α) :
    List (κ × α) :=
  (k, v) :: l.filter (fun p => p.1 ≠ k)

/-- Drop the binding of a key (map semantics of `HashMap::remove`). -/
def remA {κ α : Type} [DecidableEq κ] (l : List (κ × α)) (k : κ) : List (κ × α) :=
  l.filter (fun p => p.1 ≠ k)

/-- AssetStatus from dataasset.rs. -/
inductive AssetStatus where
  | Active
  | Locked
deriving DecidableEq, Repr

/-- CertificateStatus from dataasset.rs. -/
inductive CertificateStatus where
  | Active
  | Expired
deriving DecidableEq, Repr

/-- RightType from dataasset.rs. -/
inductive RightType where
  | Usage
  | Access
deriving DecidableEq, Repr

/-- DataAsset record (dataasset.rs).  Fields that the manager code never reads
or writes (name, description, labels, statistics, IPFS data, pricing, counters
it does not touch) are bundled into the opaque `extra` payload; all fields the
manager touches are kept individually. -/
structure DataAsset where
  version : Bytes
  asset_id : Bytes
  token_id : Nat
  raw_data_hash : Bytes
  owner : Bytes
  timestamp : Nat
  confirm_time : Nat
  nonce : Nat
  is_locked : Bool
  children_root : Bytes
  transaction_count : Nat
  status : AssetStatus
  updated_at : Nat
  extra : Bytes
deriving DecidableEq, Repr

/-- RightToken record (dataasset.rs), with untouched fields bundled in `extra`. -/
structure RightToken where
  version : Bytes
  token_id : Bytes
  certificate_id : Nat
  right_type : RightType
  create_time : Nat
  confirm_time : Nat
  valid_from : Nat
  valid_until : Option Nat
  owner : Bytes
  issuer : Bytes
  nonce : Nat
  parent_asset_id : Bytes
  parent_asset_token_id : Nat
  status : CertificateStatus
  extra : Bytes
deriving DecidableEq, Repr

/-- An application-level stored value: either raw bytes, a SCALE-encoded
DataAsset, or a SCALE-encoded RightToken.  Decoding a value as the wrong type
is modelled as a decode failure. -/
inductive AppVal where
  | bytes (b : Bytes)
  | asset (a : DataAsset)
  | cert (c : RightToken)
deriving DecidableEq, Repr

/-- Payload of one trie node: in the single-node model of the external trie
algorithm, the node of a trie version carries the full key/value mapping. -/
abbrev NodeData := List (Bytes × AppVal)

/-- Length-prefixed encoding of a byte string (self-delimiting). -/
def encL (l : List Nat) : List Nat := l.length :: l

/-- Encoding of an optional number. -/
def encO : Option Nat → List Nat
  | none => [0]
  | some n => [1, n]

/-- Encoding of an AssetStatus. -/
def encSt : AssetStatus → List Nat
  | .Active => [0]
  | .Locked => [1]

/-- Encoding of a CertificateStatus. -/
def encCs : CertificateStatus → List Nat
  | .Active => [0]
  | .Expired => [1]

/-- Encoding of a RightType. -/
def encRt : RightType → List Nat
  | .Usage => [0]
  | .Access => [1]

/-- Self-delimiting encoding of a DataAsset. -/
def encAsset (a : DataAsset) : List Nat :=
  encL a.version ++ encL a.asset_id ++ [a.token_id] ++ encL a.raw_data_hash ++
  encL a.owner ++ [a.timestamp, a.confirm_time, a.nonce, cond a.is_locked 1 0] ++
  encL a.children_root ++ [a.transaction_count] ++ encSt a.status ++
  [a.updated_at] ++ encL a.extra

/-- Self-delimiting encoding of a RightToken. -/
def encCert (c : RightToken) : List Nat :=
  encL c.version ++ encL c.token_id ++ [c.certificate_id] ++ encRt c.right_type ++
  [c.create_time, c.confirm_time, c.valid_from] ++ encO c.valid_until ++
  encL c.owner ++ encL c.issuer ++ [c.nonce] ++ encL c.parent_asset_id ++
  [c.parent_asset_token_id] ++ encCs c.status ++ encL c.extra

/-- Self-delimiting encoding of an AppVal. -/
def encAppVal : AppVal → List Nat
  | .bytes b => 0 :: encL b
  | .asset a => 1 :: encAsset a
  | .cert c => 2 :: encCert c

/-- Flat encoding of a node payload. -/
def encNode : NodeData → List Nat
  | [] => []
  | (k, v) :: rest => encL k ++ encAppVal v ++ encNode rest

/-- Modelled from the spec: the pure content hash `Hash(bytes) -> digest` of the
external authenticated-trie library (§6).  It is deterministic, content-derived,
injective (idealizing collision resistance) and never all-zero (its first byte
is 1), so it can never collide with the empty-root sentinel. -/
def model_hash (n : NodeData) : Bytes := 1 :: encNode n

/-- The all-zero 32-byte digest: the empty-trie sentinel and `Default::default()`
of a trie root. -/
def zeroRoot : Bytes := List.replicate 32 0

/-- Test for an all-zero digest, as written in the source
(`root.as_ref().iter().all(|&x| x == 0)`). -/
def isZeroBytes (b : Bytes) : Bool := b.all (fun x => x == 0)

/-- One operation inside a physical transaction
(`kvdb::DBTransaction::put` / `delete`). -/
inductive TxOp where
  | put (k : Bytes) (v : NodeData)
  | del (k : Bytes)
deriving DecidableEq, Repr

/-- The physical column-based key-value database (`kvdb::KeyValueDB`, column 0),
with fault switches for read and write failures. -/
structure KVDB where
  data : List (Bytes × NodeData)
  getErr : Bytes → Bool
  writeErr : Bool

/-- Physical read: `kv.get(col, key)`, which may fail. -/
def KVDB.get (db : KVDB) (k : Bytes) : Except Unit (Option NodeData) :=
  if db.getErr k then .error () else .ok (lookupA db.data k)

/-- Apply one transaction operation to the committed data. -/
def applyOp (d : List (Bytes × NodeData)) : TxOp → List (Bytes × NodeData)
  | .put k v => putA d k v
  | .del k => remA d k

/-- Atomic transaction commit: `kv.write(tx)`.  All-or-nothing: on failure the
committed data is unchanged. -/
def KVDB.write (db : KVDB) (tx : List TxOp) : Except Unit KVDB :=
  if db.writeErr then .error ()
  else .ok { db with data := tx.foldl applyOp db.data }

/-- A store whose physical reads never fail. -/
def goodStore (db : KVDB) : Prop := ∀ k, db.getErr k = false

/-- A store in which every committed binding is content-addressed: the key of a
stored node is the digest of its payload.  Every write the system issues has
this shape, so it is an invariant of system-built stores. -/
def hashConsistent (db : KVDB) : Prop :=
  ∀ k n, lookupA db.data k = some n → k = model_hash n

/-- Node-addressing pair `(prefix_bytes, optional_tag)` of the hash-db
interface. -/
abbrev Pfx := Bytes × Option Nat

/-- The prefix `(&[], None)` that every call site in this repository uses. -/
def emptyPfx : Pfx := ([], none)

/-- make_prefixed_key from kvdb_hashdb.rs (same function is repeated in mpt.rs):
final physical key = prefix.0 (+ prefix.1) + hash bytes. -/
def make_real_key (p : Pfx) (key : Bytes) : Bytes :=
  p.1 ++ (match p.2 with | some tag => [tag] | none => []) ++ key

/-- KvdbHashDB from kvdb_hashdb.rs: the NodeStore Adapter, a KVDB plus an
in-memory read cache. -/
structure KvdbHashDB where
  kv : KVDB
  cache : List (Bytes × NodeData)

/-- KvdbHashDB::new. -/
def KvdbHashDB.new (kv : KVDB) : KvdbHashDB := { kv := kv, cache := [] }

/-- HashDB::get for KvdbHashDB: all-zero hashes answer None without touching
the store; otherwise cache first, then the KVDB; a physical read error is
logged and answered as None. -/
def KvdbHashDB.get (h : KvdbHashDB) (key : Bytes) (p : Pfx) : Option NodeData :=
  if isZeroBytes key then none
  else
    let real_key := make_real_key p key
    match lookupA h.cache real_key with
    | some v => some v
    | none =>
      match h.kv.get real_key with
      | .ok o => o
      | .error _ => none

/-- HashDB::contains for KvdbHashDB, defined as get(..).is_some(). -/
def KvdbHashDB.contains (h : KvdbHashDB) (key : Bytes) (p : Pfx) : Bool :=
  (h.get key p).isSome

/-- HashDB::emplace for KvdbHashDB: write the physical key synchronously in its
own transaction.  On write failure the code logs a warning and returns early,
so neither the store nor the cache is updated and no error reaches the caller.
On success the cache is updated. -/
def KvdbHashDB.emplace (h : KvdbHashDB) (key : Bytes) (p : Pfx) (value : NodeData) :
    KvdbHashDB :=
  let real_key := make_real_key p key
  match h.kv.write [TxOp.put real_key value] with
  | .error _ => h
  | .ok kv2 => { kv := kv2, cache := putA h.cache real_key value }

/-- HashDB::insert for KvdbHashDB: hash the value, emplace, return the hash. -/
def KvdbHashDB.insert (h : KvdbHashDB) (p : Pfx) (value : NodeData) :
    Bytes × KvdbHashDB :=
  (model_hash value, h.emplace (model_hash value) p value)

/-- HashDB::remove for KvdbHashDB: evict from the cache, then issue a physical
delete; a delete failure is logged and swallowed (the cache entry is already
gone at that point). -/
def KvdbHashDB.remove (h : KvdbHashDB) (key : Bytes) (p : Pfx) : KvdbHashDB :=
  let real_key := make_real_key p key
  let cache2 := remA h.cache real_key
  match h.kv.write [TxOp.del real_key] with
  | .error _ => { h with cache := cache2 }
  | .ok kv2 => { kv := kv2, cache := cache2 }

/-- ChangeCollector from kvdb_hashdb.rs: buffers node writes/deletes of one
mutation episode; `changes` maps physical key to `some bytes` (write) or `none`
(intended delete). -/
structure ChangeCollector where
  kv : KVDB
  changes : List (Bytes × Option NodeData)
  preserve_history : Bool

/-- ChangeCollector::new — history preservation defaults to ON. -/
def ChangeCollector.new (kv : KVDB) : ChangeCollector :=
  { kv := kv, changes := [], preserve_history := true }

/-- ChangeCollector::new_with_history_mode. -/
def ChangeCollector.new_with_history_mode (kv : KVDB) (preserve : Bool) :
    ChangeCollector :=
  { kv := kv, changes := [], preserve_history := preserve }

/-- HashDB::get for ChangeCollector: pending changes shadow the physical store
(a pending delete must not be resurrected from disk); otherwise fall through to
the KVDB, answering None on a physical read error. -/
def ChangeCollector.get (c : ChangeCollector) (key : Bytes) (p : Pfx) :
    Option NodeData :=
  let real_key := make_real_key p key
  match lookupA c.changes real_key with
  | some change => change
  | none =>
    match c.kv.get real_key with
    | .ok o => o
    | .error _ => none

/-- HashDB::contains for ChangeCollector. -/
def ChangeCollector.contains (c : ChangeCollector) (key : Bytes) (p : Pfx) : Bool :=
  (c.get key p).isSome

/-- HashDB::emplace for ChangeCollector: record the write in memory; no
physical I/O happens here. -/
def ChangeCollector.emplace (c : ChangeCollector) (key : Bytes) (p : Pfx)
    (value : NodeData) : ChangeCollector :=
  { c with changes := putA c.changes (make_real_key p key) (some value) }

/-- HashDB::insert for ChangeCollector. -/
def ChangeCollector.insert (c : ChangeCollector) (p : Pfx) (value : NodeData) :
    Bytes × ChangeCollector :=
  (model_hash value, c.emplace (model_hash value) p value)

/-- HashDB::remove for ChangeCollector: record an intended delete (the record
is made in both history modes; only apply_changes consults the flag). -/
def ChangeCollector.remove (c : ChangeCollector) (key : Bytes) (p : Pfx) :
    ChangeCollector :=
  { c with changes := putA c.changes (make_real_key p key) none }

/-- ChangeCollector::change_stats: (writes, deletes, total). -/
def ChangeCollector.change_stats (c : ChangeCollector) : Nat × Nat × Nat :=
  ( (c.changes.filter (fun p => p.2.isSome)).length
  , (c.changes.filter (fun p => p.2.isNone)).length
  , c.changes.length )

/-- The single transaction apply_changes builds from the pending-change map:
every `some` entry becomes a put; a `none` entry becomes a delete only when
history preservation is off, and is skipped entirely when it is on. -/
def ChangeCollector.buildTx (c : ChangeCollector) : List TxOp :=
  c.changes.filterMap (fun p =>
    match p.2 with
    | some v => some (TxOp.put p.1 v)
    | none => if c.preserve_history then none else some (TxOp.del p.1))

/-- ChangeCollector::apply_changes: if the pending map is empty, return Ok
without touching the store (no transaction is issued); otherwise commit one
transaction.  The second component of the result is the transcript of physical
transactions issued (zero or one). -/
def ChangeCollector.apply_changes (c : ChangeCollector) :
    Except Unit (KVDB × List (List TxOp)) :=
  if c.changes.isEmpty then .ok (c.kv, [])
  else
    match c.kv.write c.buildTx with
    | .error e => .error e
    | .ok kv2 => .ok (kv2, [c.buildTx])

/-- AssetTrie from mpt.rs: the Trie Façade, bound to one physical store and one
current root. -/
structure AssetTrie where
  db : KVDB
  root : Bytes

/-- AssetTrie::root. -/
def AssetTrie.rootOf (t : AssetTrie) : Bytes := t.root

/-- AssetTrie::is_empty_root: `root == Default::default() || all bytes zero`. -/
def AssetTrie.is_empty_root (t : AssetTrie) : Bool :=
  (t.root == zeroRoot) || isZeroBytes t.root

/-- AssetTrie::iter_all: the full key/value mapping at the current root; on an
empty root, or when the root node cannot be read (iterator errors are
swallowed by the source), the result is empty. -/
def AssetTrie.iter_all (t : AssetTrie) : NodeData :=
  if t.is_empty_root then []
  else
    match (KvdbHashDB.new t.db).get t.root emptyPfx with
    | some m => m
    | none => []

/-- AssetTrie::get: an empty root answers not-found without opening a trie;
otherwise the trie is opened read-only at the current root (a missing root
node surfaces as the trie library's error). -/
def AssetTrie.get (t : AssetTrie) (key : Bytes) : Except Unit (Option AppVal) :=
  if t.is_empty_root then .ok none
  else
    match (KvdbHashDB.new t.db).get t.root emptyPfx with
    | some m => .ok (lookupA m key)
    | none => .error ()

/-- AssetTrie::contains. -/
def AssetTrie.containsKey (t : AssetTrie) (key : Bytes) : Except Unit Bool :=
  (t.get key).map Option.isSome

/-- Sequential trie inserts of a fresh mutation session: later bindings of the
same key overwrite earlier ones. -/
def buildMap (base : NodeData) (items : List (Bytes × AppVal)) : NodeData :=
  items.foldl (fun m p => putA m p.1 p.2) base

/-- Sequential trie removes of a mutation session. -/
def removeKeys (base : NodeData) (keys : List Bytes) : NodeData :=
  keys.foldl (fun m k => remA m k) base

/-- AssetTrie::create_new_tree: build the whole mapping in a throwaway memory
buffer with the external algorithm, then drain the surviving nodes (in the
single-node model, the one final node) into the store in one transaction with
the `(&[], None)` prefix; a write failure aborts the call. -/
def AssetTrie.create_new_tree (t : AssetTrie) (items : List (Bytes × AppVal)) :
    Except Unit AssetTrie :=
  let m := buildMap [] items
  if m.isEmpty then .ok { t with root := zeroRoot }
  else
    match t.db.write [TxOp.put (make_real_key emptyPfx (model_hash m)) m] with
    | .error e => .error e
    | .ok db2 => .ok { db := db2, root := model_hash m }

/-- AssetTrie::fallback_update: read every live pair at the current root, apply
the deletes then the inserts to that snapshot, and rebuild from scratch (zero
root when the result is empty). -/
def AssetTrie.fallback_update (t : AssetTrie) (inserts : List (Bytes × AppVal))
    (deletes : List Bytes) : Except Unit AssetTrie :=
  let current := t.iter_all
  let current2 := buildMap (removeKeys current deletes) inserts
  if current2.isEmpty then .ok { t with root := zeroRoot }
  else
    match t.db.write [TxOp.put (make_real_key emptyPfx (model_hash current2)) current2] with
    | .error e => .error e
    | .ok db2 => .ok { db := db2, root := model_hash current2 }

/-- Core of AssetTrie::incremental_update once the special cases are out of the
way: open the existing trie for mutation through a ChangeCollector constructed
with history preservation ON, run the mutation session (modelled per the spec
interface: read the old node, apply all inserts then all deletes, reclaim the
old node through the collector, and emplace the new node unless the mapping
became empty), consult change_stats, commit with apply_changes, verify the new
root is retrievable, and fall back to a full rebuild when verification fails. -/
def AssetTrie.incremental_core (t : AssetTrie) (inserts : List (Bytes × AppVal))
    (deletes : List Bytes) : Except Unit AssetTrie :=
  let cc0 := ChangeCollector.new_with_history_mode t.db true
  match cc0.get t.root emptyPfx with
  | none => .error ()
  | some m =>
    let m2 := removeKeys (buildMap m inserts) deletes
    let session :=
      if m2.isEmpty then (cc0.remove t.root emptyPfx, zeroRoot)
      else ((cc0.remove t.root emptyPfx).emplace (model_hash m2) emptyPfx m2,
            model_hash m2)
    let cc1 := session.1
    let root_local := session.2
    if cc1.change_stats.1 == 0 && root_local != t.root then
      t.fallback_update inserts deletes
    else
      match cc1.apply_changes with
      | .error e => .error e
      | .ok (db2, _) =>
        if !isZeroBytes root_local then
          if !(KvdbHashDB.new db2).contains root_local emptyPfx then
            (AssetTrie.mk db2 t.root).fallback_update inserts deletes
          else .ok { db := db2, root := root_local }
        else .ok { db := db2, root := zeroRoot }

/-- AssetTrie::incremental_update: verify the current root node exists in the
store, short-circuit the deletion of the single remaining key of a
known-singleton trie straight to the zero root, and otherwise run the
collector path. -/
def AssetTrie.incremental_update (t : AssetTrie) (inserts : List (Bytes × AppVal))
    (deletes : List Bytes) : Except Unit AssetTrie :=
  if !(KvdbHashDB.new t.db).contains t.root emptyPfx then .error ()
  else if !deletes.isEmpty && inserts.isEmpty && deletes.length == 1 then
    let current_data := t.iter_all
    if current_data.length == 1 && (lookupA current_data (deletes.headD [])).isSome then
      .ok { t with root := zeroRoot }
    else t.incremental_core inserts deletes
  else t.incremental_core inserts deletes

/-- AssetTrie::batch_insert. -/
def AssetTrie.batch_insert (t : AssetTrie) (items : List (Bytes × AppVal)) :
    Except Unit AssetTrie :=
  if items.isEmpty then .ok t
  else if t.is_empty_root then t.create_new_tree items
  else t.incremental_update items []

/-- AssetTrie::insert. -/
def AssetTrie.insert (t : AssetTrie) (key : Bytes) (value : AppVal) :
    Except Unit AssetTrie :=
  t.batch_insert [(key, value)]

/-- AssetTrie::batch_remove. -/
def AssetTrie.batch_remove (t : AssetTrie) (keys : List Bytes) :
    Except Unit AssetTrie :=
  if keys.isEmpty then .ok t
  else if t.is_empty_root then .ok t
  else t.incremental_update [] keys

/-- AssetTrie::remove. -/
def AssetTrie.remove (t : AssetTrie) (key : Bytes) : Except Unit AssetTrie :=
  t.batch_remove [key]

/-- DataAsset::is_locked (the method, combining the flag with the status). -/
def DataAsset.lockedB (a : DataAsset) : Bool :=
  a.is_locked || decide (a.status = AssetStatus.Locked)

/-- DataAsset::is_active. -/
def DataAsset.activeB (a : DataAsset) : Bool :=
  decide (a.status = AssetStatus.Active) && !a.lockedB

/-- Modelled from the spec: DataAsset::generate_asset_id hashes
owner ++ timestamp_le ++ raw_data_hash with the external BlakeTwo256; modelled
as an injective content-derived digest distinct from every node digest. -/
def generate_asset_id (owner : Bytes) (timestamp : Nat) (data_hash : Bytes) :
    Bytes :=
  3 :: encL owner ++ timestamp :: encL data_hash

/-- RightToken::generate_token_id: the textual "parent|sequence" pair, with the
decimal rendering of the two numbers abstracted to single list entries around
the pipe byte. -/
def RightToken.generate_token_id (parent_token_id : Nat)
    (certificate_sequence : Nat) : Bytes :=
  [parent_token_id, 124, certificate_sequence]

/-- The protocol version string "1.0" as bytes. -/
def ver10 : Bytes := [49, 46, 48]

/-- make_certificate_key from mpt_manager.rs: the 4-byte little-endian
rendering of the u32 certificate id. -/
def make_certificate_key (certificate_id : Nat) : Bytes :=
  let c := certificate_id % 4294967296
  [c % 256, c / 256 % 256, c / 65536 % 256, c / 16777216]

/-- u32::from_le_bytes([key[0], key[1], key[2], key[3]]) on the first four
entries of a key. -/
def le4 (k : Bytes) : Nat :=
  k.getD 0 0 + k.getD 1 0 * 256 + k.getD 2 0 * 65536 + k.getD 3 0 * 16777216

/-- The scan inside get_next_certificate_id: the largest 4-byte little-endian
id among the keys of length at least 4 (0 when there is none). -/
def maxCertIdIn (l : NodeData) : Nat :=
  l.foldl (fun mx p => if 4 ≤ p.1.length then max mx (le4 p.1) else mx) 0

/-- SimplifiedDualLayerMptManager from mpt_manager.rs.  All AssetTrie instances
share one physical store through an Arc in the source; here the single store is
held once and each trie is reconstituted as (shared db, cached root).
`certificate_trees` maps an asset id to the root of its cached child-trie
instance; `certificate_roots` is the separate root cache the source maintains
alongside it. -/
structure SimplifiedDualLayerMptManager where
  db : KVDB
  main_root : Bytes
  current_main_root : Bytes
  certificate_trees : List (Bytes × Bytes)
  certificate_roots : List (Bytes × Bytes)
  token_id_to_asset_id : List (Nat × Bytes)
  next_token_id : Nat

namespace SimplifiedDualLayerMptManager

/-- SimplifiedDualLayerMptManager::new. -/
def new (db : KVDB) : SimplifiedDualLayerMptManager :=
  { db := db, main_root := zeroRoot, current_main_root := zeroRoot,
    certificate_trees := [], certificate_roots := [],
    token_id_to_asset_id := [], next_token_id := 0 }

/-- SimplifiedDualLayerMptManager::get_certificate_root: the cached child-trie
root of an asset, defaulting to the zero root. -/
def get_certificate_root (m : SimplifiedDualLayerMptManager) (asset_id : Bytes) :
    Bytes :=
  (lookupA m.certificate_roots asset_id).getD zeroRoot

/-- Root of the cached child-trie instance of an asset (zero when no instance
is cached yet, which is also what initialization would store). -/
def certTreeRoot (m : SimplifiedDualLayerMptManager) (asset_id : Bytes) : Bytes :=
  (lookupA m.certificate_trees asset_id).getD zeroRoot

/-- Full content of an asset's certificate sub-trie as it stands in a manager
state. -/
def certContent (m : SimplifiedDualLayerMptManager) (asset_id : Bytes) :
    NodeData :=
  (AssetTrie.mk m.db (m.certTreeRoot asset_id)).iter_all

/-- allocate_token_id: postfix-increment of the shared counter. -/
def allocate_token_id (m : SimplifiedDualLayerMptManager) :
    Nat × SimplifiedDualLayerMptManager :=
  (m.next_token_id, { m with next_token_id := m.next_token_id + 1 })

/-- init_certificate_tree (initialize_certificate_tree in the source): cache a
fresh empty child-trie instance and a zero root for the asset; it cannot fail. -/
def init_certificate_tree (m : SimplifiedDualLayerMptManager) (asset_id : Bytes) :
    SimplifiedDualLayerMptManager :=
  { m with certificate_trees := putA m.certificate_trees asset_id zeroRoot,
           certificate_roots := putA m.certificate_roots asset_id zeroRoot }

/-- get_or_create_certificate_tree: return the cached child-trie (its root), or
initialize one first.  The only error arm in the source is unreachable (the
entry is present right after initialization), so the model is total. -/
def get_or_create_certificate_tree (m : SimplifiedDualLayerMptManager)
    (asset_id : Bytes) : Bytes × SimplifiedDualLayerMptManager :=
  match lookupA m.certificate_trees asset_id with
  | some r => (r, m)
  | none => (zeroRoot, m.init_certificate_tree asset_id)

/-- insert_asset: encode the record, insert it into the main trie under the
asset id, and refresh both cached main roots. -/
def insert_asset (m : SimplifiedDualLayerMptManager) (asset_id : Bytes)
    (a : DataAsset) : Except Unit Bytes × SimplifiedDualLayerMptManager :=
  match (AssetTrie.mk m.db m.main_root).insert asset_id (.asset a) with
  | .error e => (.error e, m)
  | .ok t2 =>
    (.ok t2.root,
     { m with db := t2.db, main_root := t2.root, current_main_root := t2.root })

/-- insert_certificate: insert the encoded certificate into the asset's child
trie under its 4-byte key and refresh the cached child tree and root. -/
def insert_certificate (m : SimplifiedDualLayerMptManager) (asset_id : Bytes)
    (c : RightToken) : Except Unit Bytes × SimplifiedDualLayerMptManager :=
  let gc := m.get_or_create_certificate_tree asset_id
  match (AssetTrie.mk gc.2.db gc.1).insert (make_certificate_key c.certificate_id)
      (.cert c) with
  | .error e => (.error e, gc.2)
  | .ok t2 =>
    (.ok t2.root,
     { gc.2 with db := t2.db,
                 certificate_trees := putA gc.2.certificate_trees asset_id t2.root,
                 certificate_roots := putA gc.2.certificate_roots asset_id t2.root })

/-- remove_certificate: delete the certificate key from the asset's child trie
and refresh the cached child tree and root. -/
def remove_certificate (m : SimplifiedDualLayerMptManager) (asset_id : Bytes)
    (certificate_id : Nat) : Except Unit Bytes × SimplifiedDualLayerMptManager :=
  let gc := m.get_or_create_certificate_tree asset_id
  match (AssetTrie.mk gc.2.db gc.1).remove (make_certificate_key certificate_id) with
  | .error e => (.error e, gc.2)
  | .ok t2 =>
    (.ok t2.root,
     { gc.2 with db := t2.db,
                 certificate_trees := putA gc.2.certificate_trees asset_id t2.root,
                 certificate_roots := putA gc.2.certificate_roots asset_id t2.root })

/-- get_asset_state_by_id: main-trie lookup plus decode; read errors and decode
failures both surface as None. -/
def get_asset_state_by_id (m : SimplifiedDualLayerMptManager) (asset_id : Bytes) :
    Option DataAsset :=
  match (AssetTrie.mk m.db m.main_root).get asset_id with
  | .ok (some (.asset a)) => some a
  | _ => none

/-- get_certificate_state: child-trie lookup plus decode (creating the cached
child-trie instance if needed); errors and decode failures surface as None. -/
def get_certificate_state (m : SimplifiedDualLayerMptManager) (asset_id : Bytes)
    (certificate_id : Nat) :
    Option RightToken × SimplifiedDualLayerMptManager :=
  let gc := m.get_or_create_certificate_tree asset_id
  match (AssetTrie.mk gc.2.db gc.1).get (make_certificate_key certificate_id) with
  | .ok (some (.cert c)) => (some c, gc.2)
  | _ => (none, gc.2)

/-- get_next_certificate_id: scan every key of the asset's child trie, keep the
largest 4-byte little-endian id, and return one more than it. -/
def get_next_certificate_id (m : SimplifiedDualLayerMptManager) (asset_id : Bytes) :
    Nat × SimplifiedDualLayerMptManager :=
  let gc := m.get_or_create_certificate_tree asset_id
  (maxCertIdIn (AssetTrie.mk gc.2.db gc.1).iter_all + 1, gc.2)

/-- update_asset_certificate_root: re-read the asset record, overwrite its
children_root with the given child root (the `[u8; 32]` conversion in the
source is the identity on real 32-byte roots) and its updated_at with the
current time, and store it back into the main trie. -/
def update_asset_certificate_root (m : SimplifiedDualLayerMptManager)
    (asset_id : Bytes) (cert_root : Bytes) (now : Nat) :
    Except Unit Unit × SimplifiedDualLayerMptManager :=
  match m.get_asset_state_by_id asset_id with
  | none => (.error (), m)
  | some a =>
    match m.insert_asset asset_id { a with children_root := cert_root, updated_at := now } with
    | (.error e, m1) => (.error e, m1)
    | (.ok _, m1) => (.ok (), m1)

/-- register_asset: allocate the numeric token id, derive the content-addressed
asset id when the supplied one is all-zero, force status/children_root/
updated_at, record the token mapping, initialize the child trie, and store the
record in the main trie.  `now` stands for current_timestamp(). -/
def register_asset (m : SimplifiedDualLayerMptManager) (asset : DataAsset)
    (now : Nat) : Except Unit (Bytes × Bytes) × SimplifiedDualLayerMptManager :=
  let al := m.allocate_token_id
  let a1 := { asset with token_id := al.1 }
  let a2 := if a1.asset_id = zeroRoot
            then { a1 with asset_id := generate_asset_id a1.owner a1.timestamp a1.raw_data_hash }
            else a1
  let a3 := { a2 with status := .Active, children_root := zeroRoot, updated_at := now }
  let m2 := { al.2 with
              token_id_to_asset_id := putA al.2.token_id_to_asset_id a3.token_id a3.asset_id }
  let m3 := m2.init_certificate_tree a3.asset_id
  match m3.insert_asset a3.asset_id a3 with
  | (.error e, m4) => (.error e, m4)
  | (.ok new_root, m4) => (.ok (a3.asset_id, new_root), m4)

/-- issue_certificate: check the parent exists and is active, compute the next
certificate id, write the certificate into the child trie, then write the new
child root into the parent record. -/
def issue_certificate (m : SimplifiedDualLayerMptManager) (asset_id : Bytes)
    (holder : Bytes) (right_type : RightType) (valid_until : Option Nat)
    (now : Nat) : Except Unit (Nat × Bytes) × SimplifiedDualLayerMptManager :=
  match m.get_asset_state_by_id asset_id with
  | none => (.error (), m)
  | some asset =>
    if !asset.activeB then (.error (), m)
    else
      let gn := m.get_next_certificate_id asset_id
      let cert : RightToken :=
        { version := ver10,
          token_id := RightToken.generate_token_id asset.token_id gn.1,
          certificate_id := gn.1, right_type := right_type,
          create_time := now, confirm_time := now, valid_from := now,
          valid_until := valid_until, owner := holder, issuer := asset.owner,
          nonce := 0, parent_asset_id := asset_id,
          parent_asset_token_id := asset.token_id,
          status := .Active, extra := [] }
      match gn.2.insert_certificate asset_id cert with
      | (.error e, m2) => (.error e, m2)
      | (.ok new_cert_root, m2) =>
        match m2.update_asset_certificate_root asset_id new_cert_root now with
        | (.error e, m3) => (.error e, m3)
        | (.ok _, m3) => (.ok (gn.1, new_cert_root), m3)

/-- revoke_certificate: permission check (asset owner or certificate owner),
delete from the child trie, then write the new child root into the parent
record. -/
def revoke_certificate (m : SimplifiedDualLayerMptManager) (asset_id : Bytes)
    (certificate_id : Nat) (revoker : Bytes) (now : Nat) :
    Except Unit Bytes × SimplifiedDualLayerMptManager :=
  match m.get_asset_state_by_id asset_id with
  | none => (.error (), m)
  | some asset =>
    let gs := m.get_certificate_state asset_id certificate_id
    match gs.1 with
    | none => (.error (), gs.2)
    | some cert =>
      if asset.owner != revoker && cert.owner != revoker then (.error (), gs.2)
      else
        match gs.2.remove_certificate asset_id certificate_id with
        | (.error e, m2) => (.error e, m2)
        | (.ok new_cert_root, m2) =>
          match m2.update_asset_certificate_root asset_id new_cert_root now with
          | (.error e, m3) => (.error e, m3)
          | (.ok _, m3) => (.ok new_cert_root, m3)

/-- update_certificate_status: rewrite the certificate with the new status,
then write the new child root into the parent record (current_timestamp is
passed in as `now`). -/
def update_certificate_status (m : SimplifiedDualLayerMptManager)
    (asset_id : Bytes) (certificate_id : Nat) (new_status : CertificateStatus)
    (now : Nat) : Except Unit Bytes × SimplifiedDualLayerMptManager :=
  let gs := m.get_certificate_state asset_id certificate_id
  match gs.1 with
  | none => (.error (), gs.2)
  | some cert =>
    match gs.2.insert_certificate asset_id { cert with status := new_status } with
    | (.error e, m2) => (.error e, m2)
    | (.ok r, m2) =>
      match m2.update_asset_certificate_root asset_id r now with
      | (.error e, m3) => (.error e, m3)
      | (.ok _, m3) => (.ok r, m3)

end SimplifiedDualLayerMptManager

/-- A trie mutation of the façade (used to quantify over call sequences). -/
inductive TrieOp where
  | ins (items : List (Bytes × AppVal))
  | rem (keys : List Bytes)

/-- Run a sequence of façade mutations, stopping at the first error. -/
def runOps : AssetTrie → List TrieOp → Except Unit AssetTrie
  | t, [] => .ok t
  | t, op :: rest =>
    match (match op with
           | .ins items => t.batch_insert items
           | .rem keys => t.batch_remove keys) with
    | .error _ => .error ()
    | .ok t2 => runOps t2 rest

/-- States of the façade in which a non-zero root is backed by a readable,
non-empty node: every state reachable by successful mutations from an empty
trie has this shape. -/
def trieInv (t : AssetTrie) : Prop :=
  isZeroBytes t.root = true ∨
  (lookupA t.db.data t.root = some t.iter_all ∧ t.iter_all ≠ [])

/-- A fault-free empty physical store. -/
def db0 : KVDB := ⟨[], fun _ => false, false⟩

/-- A store whose transaction commits fail. -/
def dbW : KVDB := ⟨[], fun _ => false, true⟩

/-- A fresh façade over the empty store. -/
def trie0 : AssetTrie := ⟨db0, zeroRoot⟩

/-- A one-pair batch. -/
def items0 : List (Bytes × AppVal) := [([1], AppVal.bytes [2])]

/-- The node holding that one pair. -/
def node0 : NodeData := [([1], AppVal.bytes [2])]

/-- The façade state after inserting items0 into trie0. -/
def trie1 : AssetTrie :=
  ⟨⟨[(model_hash node0, node0)], fun _ => false, false⟩, model_hash node0⟩

/-- The façade state after removing the only key again. -/
def trie2 : AssetTrie :=
  ⟨⟨[(model_hash node0, node0)], fun _ => false, false⟩, zeroRoot⟩

/-- A NodeStore Adapter over a store with failing writes, warm cache, and one
committed node. -/
def hdbC : KvdbHashDB :=
  ⟨⟨[(model_hash node0, node0)], fun _ => false, true⟩,
   [(model_hash node0, node0)]⟩

/-- A collector with one pending write and one pending delete, history ON. -/
def ccW : ChangeCollector := ⟨db0, [([5], some node0), ([6], none)], true⟩

/-- The same pending map with history OFF. -/
def ccN : ChangeCollector := ⟨db0, [([5], some node0), ([6], none)], false⟩

/-- A store whose reads always fail. -/
def dbE : KVDB := ⟨[], fun _ => true, false⟩

/-- A manager over the store with failing writes. -/
def mgrW : SimplifiedDualLayerMptManager := SimplifiedDualLayerMptManager.new dbW

/-- A caller-supplied asset record with a non-zero asset_id. -/
def assetW : DataAsset :=
  ⟨ver10, [5], 0, [7], [9], 11, 11, 0, false, zeroRoot, 0, .Active, 0, []⟩

/-- Manager after registering assetW over a fresh fault-free store. -/
def mgrA : SimplifiedDualLayerMptManager :=
  ((SimplifiedDualLayerMptManager.new db0).register_asset assetW 0).2

/-- The main root returned by that registration. -/
def rootA : Bytes := mgrA.current_main_root

/-- Result of issuing the first certificate for asset [5]. -/
def issueB := mgrA.issue_certificate [5] [21] RightType.Usage none 1

/-- Manager after the first issuance. -/
def mgrB : SimplifiedDualLayerMptManager := issueB.2

/-- The child root after the first issuance. -/
def rootB : Bytes := mgrB.get_certificate_root [5]

/-- Manager after a second and third issuance (certificate ids 1, 2, 3). -/
def mgrC2 : SimplifiedDualLayerMptManager :=
  (mgrB.issue_certificate [5] [22] RightType.Usage none 2).2

/-- Manager holding certificates 1, 2, 3. -/
def mgrC3 : SimplifiedDualLayerMptManager :=
  (mgrC2.issue_certificate [5] [23] RightType.Usage none 3).2

/-- Manager after revoking the middle certificate 2 (ids 1 and 3 remain). -/
def mgrC4 : SimplifiedDualLayerMptManager :=
  (mgrC3.revoke_certificate [5] 2 [9] 4).2

/-- Manager after also revoking the maximum id 3 (only id 1 remains). -/
def mgrC5 : SimplifiedDualLayerMptManager :=
  (mgrC4.revoke_certificate [5] 3 [9] 5).2

/-- The issuance following the revocation of the maximum over a gapped id set. -/
def issueC6 := mgrC5.issue_certificate [5] [24] RightType.Usage none 6

/-- Manager after revoking the maximum id 3 from the gap-free set 1,2,3. -/
def mgrD4 : SimplifiedDualLayerMptManager :=
  (mgrC3.revoke_certificate [5] 3 [9] 4).2

/-- The issuance following that revocation (contiguous remaining ids). -/
def issueD5 := mgrD4.issue_certificate [5] [25] RightType.Usage none 5

/-- Reader for a length-prefixed chunk; inverse of encL on well-formed input. -/
def rdL : List Nat → Option (List Nat × List Nat)
  | [] => none
  | n :: rest => if n ≤ rest.length then some (rest.take n, rest.drop n) else none

/-- Reader for an AssetStatus chunk. -/
def rdSt : List Nat → Option (AssetStatus × List Nat)
  | 0 :: r => some (.Active, r)
  | 1 :: r => some (.Locked, r)
  | _ => none

/-- Reader for a CertificateStatus chunk. -/
def rdCs : List Nat → Option (CertificateStatus × List Nat)
  | 0 :: r => some (.Active, r)
  | 1 :: r => some (.Expired, r)
  | _ => none

/-- Reader for a RightType chunk. -/
def rdRt : List Nat → Option (RightType × List Nat)
  | 0 :: r => some (.Usage, r)
  | 1 :: r => some (.Access, r)
  | _ => none

/-- Reader for an optional-number chunk. -/
def rdO : List Nat → Option (Option Nat × List Nat)
  | 0 :: r => some (none, r)
  | 1 :: n :: r => some (some n, r)
  | _ => none

theorem rdL_encL (l r : List Nat) : rdL (encL l ++ r) = some (l, r) := by
  simp [rdL, encL, List.take_left, List.drop_left]

theorem rdSt_enc (s : AssetStatus) (r : List Nat) :
    rdSt (encSt s ++ r) = some (s, r) := by
  cases s <;> rfl

theorem rdCs_enc (s : CertificateStatus) (r : List Nat) :
    rdCs (encCs s ++ r) = some (s, r) := by
  cases s <;> rfl

theorem rdRt_enc (s : RightType) (r : List Nat) :
    rdRt (encRt s ++ r) = some (s, r) := by
  cases s <;> rfl

theorem rdO_enc (o : Option Nat) (r : List Nat) :
    rdO (encO o ++ r) = some (o, r) := by
  cases o <;> rfl

theorem cond_bit_inj {x y : Bool} (h : cond x 1 0 = cond y 1 0) : x = y := by
  cases x <;> cases y <;> simp_all

theorem encAsset_cancel {a b : DataAsset} {x y : List Nat}
    (h : encAsset a ++ x = encAsset b ++ y) : a = b ∧ x = y := by
  obtain ⟨v1, i1, t1, r1, o1, ts1, ct1, n1, l1, cr1, tc1, s1, u1, e1⟩ := a
  obtain ⟨v2, i2, t2, r2, o2, ts2, ct2, n2, l2, cr2, tc2, s2, u2, e2⟩ := b
  simp only [encAsset, List.append_assoc, List.cons_append, List.nil_append] at h
  have p1 := congrArg rdL h
  rw [rdL_encL, rdL_encL, Option.some.injEq, Prod.mk.injEq] at p1
  obtain ⟨hv, h⟩ := p1
  have p2 := congrArg rdL h
  rw [rdL_encL, rdL_encL, Option.some.injEq, Prod.mk.injEq] at p2
  obtain ⟨hi, h⟩ := p2
  rw [List.cons.injEq] at h
  obtain ⟨ht, h⟩ := h
  have p3 := congrArg rdL h
  rw [rdL_encL, rdL_encL, Option.some.injEq, Prod.mk.injEq] at p3
  obtain ⟨hr, h⟩ := p3
  have p4 := congrArg rdL h
  rw [rdL_encL, rdL_encL, Option.some.injEq, Prod.mk.injEq] at p4
  obtain ⟨ho, h⟩ := p4
  rw [List.cons.injEq] at h
  obtain ⟨hts, h⟩ := h
  rw [List.cons.injEq] at h
  obtain ⟨hct, h⟩ := h
  rw [List.cons.injEq] at h
  obtain ⟨hn, h⟩ := h
  rw [List.cons.injEq] at h
  obtain ⟨hl, h⟩ := h
  have p5 := congrArg rdL h
  rw [rdL_encL, rdL_encL, Option.some.injEq, Prod.mk.injEq] at p5
  obtain ⟨hcr, h⟩ := p5
  rw [List.cons.injEq] at h
  obtain ⟨htc, h⟩ := h
  have p6 := congrArg rdSt h
  rw [rdSt_enc, rdSt_enc, Option.some.injEq, Prod.mk.injEq] at p6
  obtain ⟨hs, h⟩ := p6
  rw [List.cons.injEq] at h
  obtain ⟨hu, h⟩ := h
  have p7 := congrArg rdL h
  rw [rdL_encL, rdL_encL, Option.some.injEq, Prod.mk.injEq] at p7
  obtain ⟨he, h⟩ := p7
  exact ⟨by simp_all [cond_bit_inj hl], h⟩

theorem encCert_cancel {a b : RightToken} {x y : List Nat}
    (h : encCert a ++ x = encCert b ++ y) : a = b ∧ x = y := by
  obtain ⟨v1, t1, c1, rt1, cr1, cf1, vf1, vu1, o1, i1, n1, p1x, pt1, s1, e1⟩ := a
  obtain ⟨v2, t2, c2, rt2, cr2, cf2, vf2, vu2, o2, i2, n2, p2x, pt2, s2, e2⟩ := b
  simp only [encCert, List.append_assoc, List.cons_append, List.nil_append] at h
  have q1 := congrArg rdL h
  rw [rdL_encL, rdL_encL, Option.some.injEq, Prod.mk.injEq] at q1
  obtain ⟨hv, h⟩ := q1
  have q2 := congrArg rdL h
  rw [rdL_encL, rdL_encL, Option.some.injEq, Prod.mk.injEq] at q2
  obtain ⟨ht, h⟩ := q2
  rw [List.cons.injEq] at h
  obtain ⟨hc, h⟩ := h
  have q3 := congrArg rdRt h
  rw [rdRt_enc, rdRt_enc, Option.some.injEq, Prod.mk.injEq] at q3
  obtain ⟨hrt, h⟩ := q3
  rw [List.cons.injEq] at h
  obtain ⟨hcr, h⟩ := h
  rw [List.cons.injEq] at h
  obtain ⟨hcf, h⟩ := h
  rw [List.cons.injEq] at h
  obtain ⟨hvf, h⟩ := h
  have q4 := congrArg rdO h
  rw [rdO_enc, rdO_enc, Option.some.injEq, Prod.mk.injEq] at q4
  obtain ⟨hvu, h⟩ := q4
  have q5 := congrArg rdL h
  rw [rdL_encL, rdL_encL, Option.some.injEq, Prod.mk.injEq] at q5
  obtain ⟨ho, h⟩ := q5
  have q6 := congrArg rdL h
  rw [rdL_encL, rdL_encL, Option.some.injEq, Prod.mk.injEq] at q6
  obtain ⟨hi, h⟩ := q6
  rw [List.cons.injEq] at h
  obtain ⟨hn, h⟩ := h
  have q7 := congrArg rdL h
  rw [rdL_encL, rdL_encL, Option.some.injEq, Prod.mk.injEq] at q7
  obtain ⟨hp, h⟩ := q7
  rw [List.cons.injEq] at h
  obtain ⟨hpt, h⟩ := h
  have q8 := congrArg rdCs h
  rw [rdCs_enc, rdCs_enc, Option.some.injEq, Prod.mk.injEq] at q8
  obtain ⟨hs, h⟩ := q8
  have q9 := congrArg rdL h
  rw [rdL_encL, rdL_encL, Option.some.injEq, Prod.mk.injEq] at q9
  obtain ⟨he, h⟩ := q9
  exact ⟨by simp_all, h⟩

theorem encAppVal_cancel {u v : AppVal} {x y : List Nat}
    (h : encAppVal u ++ x = encAppVal v ++ y) : u = v ∧ x = y := by
  cases u <;> cases v <;>
    simp only [encAppVal, List.cons_append, List.cons.injEq, List.append_assoc] at h
  case bytes.bytes b1 b2 =>
    have := rdL_encL b1 x
    have p := congrArg rdL h.2
    rw [rdL_encL, rdL_encL, Option.some.injEq, Prod.mk.injEq] at p
    simp_all
  case bytes.asset => simp_all
  case bytes.cert => simp_all
  case asset.bytes => simp_all
  case asset.asset a1 a2 =>
    obtain ⟨h1, h2⟩ := encAsset_cancel h.2
    simp_all
  case asset.cert => simp_all
  case cert.bytes => simp_all
  case cert.asset => simp_all
  case cert.cert c1 c2 =>
    obtain ⟨h1, h2⟩ := encCert_cancel h.2
    simp_all

theorem encNode_nil_iff (n : NodeData) : encNode n = [] ↔ n = [] := by
  cases n with
  | nil => simp [encNode]
  | cons p rest =>
    obtain ⟨k, v⟩ := p
    simp [encNode, encL]

theorem encNode_inj : ∀ {n₁ n₂ : NodeData}, encNode n₁ = encNode n₂ → n₁ = n₂ := by
  intro n₁
  induction n₁ with
  | nil =>
    intro n₂ h
    have : encNode n₂ = [] := h.symm
    exact ((encNode_nil_iff n₂).mp this).symm
  | cons p rest ih =>
    intro n₂ h
    cases n₂ with
    | nil =>
      exfalso
      have : encNode (p :: rest) = [] := h
      have := (encNode_nil_iff (p :: rest)).mp this
      simp at this
    | cons q rest2 =>
      obtain ⟨k1, v1⟩ := p
      obtain ⟨k2, v2⟩ := q
      simp only [encNode, List.append_assoc] at h
      have p := congrArg rdL h
      rw [rdL_encL, rdL_encL, Option.some.injEq, Prod.mk.injEq] at p
      obtain ⟨hk, h⟩ := p
      obtain ⟨hv, h⟩ := encAppVal_cancel h
      have := ih h
      simp_all

theorem model_hash_inj {n₁ n₂ : NodeData} (h : model_hash n₁ = model_hash n₂) :
    n₁ = n₂ := by
  rw [model_hash, model_hash, List.cons.injEq] at h
  exact encNode_inj h.2

theorem isZero_model_hash (n : NodeData) : isZeroBytes (model_hash n) = false := by
  simp [model_hash, isZeroBytes]

theorem isZero_zeroRoot : isZeroBytes zeroRoot = true := by decide

theorem model_hash_ne_zeroRoot (n : NodeData) : model_hash n ≠ zeroRoot := by
  intro h
  have := isZero_model_hash n
  rw [h, isZero_zeroRoot] at this
  cases this

theorem lookupA_nil {κ α : Type} [DecidableEq κ] (k : κ) :
    lookupA ([] : List (κ × α)) k = none := rfl

theorem lookupA_putA_self {κ α : Type} [DecidableEq κ] (l : List (κ × α)) (k : κ)
    (v : α) : lookupA (putA l k v) k = some v := by
  simp [lookupA, putA, List.find?]

theorem lookupA_cons {κ α : Type} [DecidableEq κ] (p : κ × α) (l : List (κ × α))
    (k : κ) :
    lookupA (p :: l) k = if p.1 = k then some p.2 else lookupA l k := by
  simp only [lookupA, List.find?_cons]
  by_cases h : p.1 = k
  · simp [h]
  · simp [h]

theorem lookupA_filter_ne {κ α : Type} [DecidableEq κ] (l : List (κ × α))
    (k k' : κ) (h : k' ≠ k) :
    lookupA (l.filter (fun p => p.1 ≠ k)) k' = lookupA l k' := by
  induction l with
  | nil => rfl
  | cons p rest ih =>
    rw [List.filter_cons]
    by_cases hp : p.1 = k
    · have hd : (decide (p.1 ≠ k)) = false := by simp [hp]
      rw [hd]
      simp only [Bool.false_eq_true, if_false]
      rw [ih, lookupA_cons]
      have hne : ¬ (p.1 = k') := by
        intro hh
        exact h (hh ▸ hp)
      simp [hne]
    · have hd : (decide (p.1 ≠ k)) = true := by simp [hp]
      rw [hd]
      simp only [if_true]
      rw [lookupA_cons, lookupA_cons, ih]

theorem lookupA_putA_ne {κ α : Type} [DecidableEq κ] (l : List (κ × α)) {k k' : κ}
    (v : α) (h : k' ≠ k) : lookupA (putA l k v) k' = lookupA l k' := by
  rw [show putA l k v = (k, v) :: l.filter (fun p => p.1 ≠ k) from rfl, lookupA_cons]
  have hne : ¬ (k = k') := fun hh => h hh.symm
  simp only [hne, if_false]
  exact lookupA_filter_ne l k k' h

theorem lookupA_remA_self {κ α : Type} [DecidableEq κ] (l : List (κ × α)) (k : κ) :
    lookupA (remA l k) k = none := by
  induction l with
  | nil => rfl
  | cons p rest ih =>
    rw [remA, List.filter_cons]
    by_cases hp : p.1 = k
    · have hd : (decide (p.1 ≠ k)) = false := by simp [hp]
      rw [hd]
      simp only [Bool.false_eq_true, if_false]
      exact ih
    · have hd : (decide (p.1 ≠ k)) = true := by simp [hp]
      rw [hd]
      simp only [if_true]
      rw [lookupA_cons, if_neg hp]
      exact ih

theorem lookupA_remA {κ α : Type} [DecidableEq κ] (l : List (κ × α)) (k k' : κ) :
    lookupA (remA l k) k' = if k' = k then none else lookupA l k' := by
  by_cases h : k' = k
  · rw [if_pos h, h, lookupA_remA_self]
  · rw [if_neg h]
    exact lookupA_filter_ne l k k' h

theorem putA_ne_nil {κ α : Type} [DecidableEq κ] (l : List (κ × α)) (k : κ) (v : α) :
    putA l k v ≠ [] := by
  simp [putA]

theorem buildMap_nil (base : NodeData) : buildMap base [] = base := rfl

theorem buildMap_ne_nil (base : NodeData) (items : List (Bytes × AppVal))
    (h : items ≠ []) : buildMap base items ≠ [] := by
  induction items generalizing base with
  | nil => exact absurd rfl h
  | cons p rest ih =>
    cases rest with
    | nil => exact putA_ne_nil base p.1 p.2
    | cons q r2 =>
      exact ih (putA base p.1 p.2) (by simp)

theorem buildMap_lookup_not_mem (items : List (Bytes × AppVal)) (base : NodeData)
    (k : Bytes) (h : k ∉ items.map Prod.fst) :
    lookupA (buildMap base items) k = lookupA base k := by
  induction items generalizing base with
  | nil => rfl
  | cons p rest ih =>
    simp only [List.map_cons, List.mem_cons] at h
    push_neg at h
    rw [show buildMap base (p :: rest) = buildMap (putA base p.1 p.2) rest from rfl]
    rw [ih _ h.2, lookupA_putA_ne _ _ h.1]

theorem buildMap_lookup_mem (items : List (Bytes × AppVal)) (base : NodeData)
    (k : Bytes) (v : AppVal) (hnd : (items.map Prod.fst).Nodup)
    (hm : (k, v) ∈ items) : lookupA (buildMap base items) k = some v := by
  induction items generalizing base with
  | nil => cases hm
  | cons p rest ih =>
    simp only [List.map_cons, List.nodup_cons] at hnd
    rw [show buildMap base (p :: rest) = buildMap (putA base p.1 p.2) rest from rfl]
    rcases List.mem_cons.mp hm with heq | hmem
    · subst heq
      show lookupA (buildMap (putA base k v) rest) k = some v
      have hnotin : k ∉ rest.map Prod.fst := hnd.1
      rw [buildMap_lookup_not_mem _ _ _ hnotin, lookupA_putA_self]
    · exact ih _ hnd.2 hmem

theorem removeKeys_nil (base : NodeData) : removeKeys base [] = base := rfl

theorem removeKeys_lookup_none (base : NodeData) (keys : List Bytes) (k : Bytes)
    (h : lookupA base k = none) : lookupA (removeKeys base keys) k = none := by
  induction keys generalizing base with
  | nil => exact h
  | cons k0 rest ih =>
    rw [show removeKeys base (k0 :: rest) = removeKeys (remA base k0) rest from rfl]
    apply ih
    rw [lookupA_remA]
    split
    · rfl
    · exact h

theorem removeKeys_lookup_mem (base : NodeData) (keys : List Bytes) (k : Bytes)
    (h : k ∈ keys) : lookupA (removeKeys base keys) k = none := by
  induction keys generalizing base with
  | nil => cases h
  | cons k0 rest ih =>
    rw [show removeKeys base (k0 :: rest) = removeKeys (remA base k0) rest from rfl]
    rcases List.mem_cons.mp h with heq | hmem
    · apply removeKeys_lookup_none
      rw [lookupA_remA, if_pos heq]
    · exact ih (remA base k0) hmem

theorem KVDB_write_ok {db : KVDB} {tx : List TxOp} {db' : KVDB}
    (h : db.write tx = .ok db') :
    db'.getErr = db.getErr ∧ db'.writeErr = db.writeErr ∧
    db'.data = tx.foldl applyOp db.data := by
  unfold KVDB.write at h
  split at h
  · cases h
  · cases h
    exact ⟨rfl, rfl, rfl⟩

theorem make_real_key_empty (k : Bytes) : make_real_key emptyPfx k = k := by
  simp [make_real_key, emptyPfx]

theorem hdb_get_new {db : KVDB} (hg : goodStore db) (h : Bytes)
    (hz : isZeroBytes h = false) :
    (KvdbHashDB.new db).get h emptyPfx = lookupA db.data h := by
  simp [KvdbHashDB.get, KvdbHashDB.new, make_real_key_empty, KVDB.get, hg h, hz,
        lookupA_nil]

theorem hdb_contains_new {db : KVDB} (hg : goodStore db) (h : Bytes)
    (hz : isZeroBytes h = false) :
    (KvdbHashDB.new db).contains h emptyPfx = (lookupA db.data h).isSome := by
  rw [KvdbHashDB.contains, hdb_get_new hg h hz]

theorem cc_get_fresh {db : KVDB} (hg : goodStore db) (mode : Bool) (h : Bytes) :
    (ChangeCollector.new_with_history_mode db mode).get h emptyPfx =
      lookupA db.data h := by
  simp [ChangeCollector.get, ChangeCollector.new_with_history_mode,
        make_real_key_empty, KVDB.get, hg h, lookupA_nil]

theorem is_empty_root_iff (t : AssetTrie) :
    t.is_empty_root = isZeroBytes t.root := by
  rw [AssetTrie.is_empty_root]
  by_cases h : t.root = zeroRoot
  · simp [h, isZero_zeroRoot]
  · simp [h]

theorem removeKeys_nil_base (keys : List Bytes) :
    removeKeys [] keys = [] := by
  induction keys with
  | nil => rfl
  | cons k rest ih =>
    show removeKeys (remA ([] : NodeData) k) rest = []
    exact ih

theorem iter_all_zero {t : AssetTrie} (hz : isZeroBytes t.root = true) :
    t.iter_all = [] := by
  rw [AssetTrie.iter_all, is_empty_root_iff, hz]
  simp

theorem iter_all_read {t : AssetTrie} (hg : goodStore t.db)
    (hz : isZeroBytes t.root = false) {m : NodeData}
    (hm : lookupA t.db.data t.root = some m) : t.iter_all = m := by
  rw [AssetTrie.iter_all, is_empty_root_iff, hz]
  simp only [Bool.false_eq_true, if_false]
  rw [hdb_get_new hg _ hz, hm]

theorem get_zero {t : AssetTrie} (hz : isZeroBytes t.root = true) (key : Bytes) :
    t.get key = .ok none := by
  rw [AssetTrie.get, is_empty_root_iff, hz]
  simp

theorem get_read {t : AssetTrie} (hg : goodStore t.db)
    (hz : isZeroBytes t.root = false) {m : NodeData}
    (hm : lookupA t.db.data t.root = some m) (key : Bytes) :
    t.get key = .ok (lookupA m key) := by
  rw [AssetTrie.get, is_empty_root_iff, hz]
  simp only [Bool.false_eq_true, if_false]
  rw [hdb_get_new hg _ hz, hm]

theorem lookup_putA_hashnode (data : List (Bytes × NodeData)) (m2 : NodeData)
    (k : Bytes) (n : NodeData) (hk : lookupA data k = some n)
    (hc : k = model_hash n) :
    lookupA (putA data (model_hash m2) m2) k = some n := by
  by_cases h : k = model_hash m2
  · have hn : n = m2 := model_hash_inj ((h.symm.trans hc).symm)
    rw [h, lookupA_putA_self, hn]
  · rw [lookupA_putA_ne _ _ h]
    exact hk

theorem zeroRoot_bne {r : Bytes} (hz : isZeroBytes r = false) :
    (zeroRoot != r) = true := by
  have : zeroRoot ≠ r := by
    intro h
    rw [← h, isZero_zeroRoot] at hz
    cases hz
  simpa using this

theorem stats_one (kv : KVDB) (r K : Bytes) (M2 : NodeData) :
    (ChangeCollector.mk kv (putA (putA [] r none) K (some M2)) true).change_stats.1
      = 1 := by
  by_cases h : r = K <;>
    simp [ChangeCollector.change_stats, putA, h, List.filter]

theorem apply_session (kv : KVDB) (r K : Bytes) (M2 : NodeData) :
    (ChangeCollector.mk kv (putA (putA [] r none) K (some M2)) true).apply_changes =
    if kv.writeErr then .error ()
    else .ok (KVDB.mk (putA kv.data K M2) kv.getErr kv.writeErr, [[TxOp.put K M2]]) := by
  by_cases h : r = K <;> by_cases hw : kv.writeErr <;>
    simp [ChangeCollector.apply_changes, ChangeCollector.buildTx, putA, h, hw,
          KVDB.write, List.filterMap, applyOp]

theorem core_insert_ok {t t' : AssetTrie} {ins : List (Bytes × AppVal)}
    (hg : goodStore t.db) {m : NodeData}
    (hm : lookupA t.db.data t.root = some m) (hne : ins ≠ [])
    (hok : t.incremental_core ins [] = .ok t') :
    t' = ⟨KVDB.mk (putA t.db.data (model_hash (buildMap m ins)) (buildMap m ins))
            t.db.getErr t.db.writeErr,
          model_hash (buildMap m ins)⟩ := by
  rw [AssetTrie.incremental_core, cc_get_fresh hg, hm] at hok
  simp only [removeKeys_nil] at hok
  have hM2 : (buildMap m ins).isEmpty = false := by
    cases hM : buildMap m ins with
    | nil => exact absurd hM (buildMap_ne_nil _ _ hne)
    | cons a l => rfl
  rw [hM2] at hok
  simp only [Bool.false_eq_true, if_false] at hok
  rw [ChangeCollector.emplace, ChangeCollector.remove,
      ChangeCollector.new_with_history_mode] at hok
  simp only [make_real_key_empty] at hok
  rw [stats_one, apply_session] at hok
  simp only [Nat.reduceBEq, Bool.false_and, Bool.false_eq_true, if_false] at hok
  by_cases hw : t.db.writeErr
  · rw [if_pos hw] at hok
    cases hok
  · rw [if_neg hw] at hok
    simp only [] at hok
    have hg2 : goodStore (KVDB.mk
        (putA t.db.data (model_hash (buildMap m ins)) (buildMap m ins))
        t.db.getErr t.db.writeErr) := hg
    rw [hdb_contains_new hg2 _ (isZero_model_hash _)] at hok
    rw [lookupA_putA_self] at hok
    simp only [isZero_model_hash, Option.isSome_some, Bool.not_true, Bool.not_false,
               if_true, Bool.true_eq_false, Bool.false_eq_true, if_false] at hok
    exact (Except.ok.inj hok).symm


theorem stats_del_only (kv : KVDB) (r : Bytes) :
    (ChangeCollector.mk kv (putA [] r none) true).change_stats.1 = 0 := by
  simp [ChangeCollector.change_stats, putA, List.filter]

theorem core_remove_ok {t t' : AssetTrie} {del : List Bytes}
    (hg : goodStore t.db) (hz : isZeroBytes t.root = false) {m : NodeData}
    (hm : lookupA t.db.data t.root = some m)
    (hok : t.incremental_core [] del = .ok t') :
    (removeKeys m del = [] → t' = ⟨t.db, zeroRoot⟩) ∧
    (removeKeys m del ≠ [] →
      t' = ⟨KVDB.mk (putA t.db.data (model_hash (removeKeys m del)) (removeKeys m del))
              t.db.getErr t.db.writeErr,
            model_hash (removeKeys m del)⟩) := by
  rw [AssetTrie.incremental_core, cc_get_fresh hg, hm] at hok
  simp only [buildMap_nil] at hok
  by_cases hM2 : removeKeys m del = []
  · have hE : (removeKeys m del).isEmpty = true := by rw [hM2]; rfl
    rw [hE] at hok
    simp only [if_true] at hok
    rw [ChangeCollector.remove, ChangeCollector.new_with_history_mode] at hok
    simp only [make_real_key_empty] at hok
    rw [stats_del_only] at hok
    simp only [Nat.reduceBEq, Bool.true_and, zeroRoot_bne hz, if_true] at hok
    rw [AssetTrie.fallback_update, iter_all_read hg hz hm] at hok
    simp only [buildMap_nil, hM2] at hok
    simp only [List.isEmpty_nil, if_true] at hok
    have ht' : t' = ⟨t.db, zeroRoot⟩ := (Except.ok.inj hok).symm
    exact ⟨fun _ => ht', fun hc => absurd hM2 hc⟩
  · have hE : (removeKeys m del).isEmpty = false := by
      cases hR : removeKeys m del with
      | nil => exact absurd hR hM2
      | cons a l => rfl
    rw [hE] at hok
    simp only [Bool.false_eq_true, if_false] at hok
    rw [ChangeCollector.emplace, ChangeCollector.remove,
        ChangeCollector.new_with_history_mode] at hok
    simp only [make_real_key_empty] at hok
    rw [stats_one, apply_session] at hok
    simp only [Nat.reduceBEq, Bool.false_and, Bool.false_eq_true, if_false] at hok
    by_cases hw : t.db.writeErr
    · rw [if_pos hw] at hok
      cases hok
    · rw [if_neg hw] at hok
      simp only [] at hok
      have hg2 : goodStore (KVDB.mk
          (putA t.db.data (model_hash (removeKeys m del)) (removeKeys m del))
          t.db.getErr t.db.writeErr) := hg
      rw [hdb_contains_new hg2 _ (isZero_model_hash _)] at hok
      rw [lookupA_putA_self] at hok
      simp only [isZero_model_hash, Option.isSome_some, Bool.not_true, Bool.not_false,
                 if_true, Bool.true_eq_false, Bool.false_eq_true, if_false] at hok
      exact ⟨fun hc => absurd hc hM2, fun _ => (Except.ok.inj hok).symm⟩

theorem foldl_single_put (d : List (Bytes × NodeData)) (k : Bytes) (v : NodeData) :
    List.foldl applyOp d [TxOp.put k v] = putA d k v := rfl

theorem batch_insert_ok {t t' : AssetTrie} {items : List (Bytes × AppVal)}
    (hg : goodStore t.db) (hne : items ≠ [])
    (hok : t.batch_insert items = .ok t') :
    t'.db.getErr = t.db.getErr ∧ t'.db.writeErr = t.db.writeErr ∧
    t'.root = model_hash (buildMap t.iter_all items) ∧
    t'.db.data = putA t.db.data (model_hash (buildMap t.iter_all items))
      (buildMap t.iter_all items) := by
  rw [AssetTrie.batch_insert] at hok
  have hni : items.isEmpty = false := by
    cases items with
    | nil => exact absurd rfl hne
    | cons a l => rfl
  rw [hni] at hok
  simp only [Bool.false_eq_true, if_false] at hok
  rw [is_empty_root_iff] at hok
  by_cases hz : isZeroBytes t.root = true
  · rw [hz] at hok
    simp only [if_true] at hok
    rw [AssetTrie.create_new_tree] at hok
    have hM : (buildMap [] items).isEmpty = false := by
      cases hM0 : buildMap [] items with
      | nil => exact absurd hM0 (buildMap_ne_nil _ _ hne)
      | cons a l => rfl
    rw [hM] at hok
    simp only [Bool.false_eq_true, if_false] at hok
    rw [make_real_key_empty, KVDB.write] at hok
    by_cases hw : t.db.writeErr
    · rw [if_pos hw] at hok
      cases hok
    · rw [if_neg hw] at hok
      simp only [foldl_single_put] at hok
      have ht' := (Except.ok.inj hok).symm
      rw [iter_all_zero hz]
      subst ht'
      exact ⟨rfl, rfl, rfl, rfl⟩
  · have hz' : isZeroBytes t.root = false := by simpa using hz
    rw [hz'] at hok
    simp only [Bool.false_eq_true, if_false] at hok
    rw [AssetTrie.incremental_update] at hok
    cases hlook : lookupA t.db.data t.root with
    | none =>
      rw [hdb_contains_new hg _ hz', hlook] at hok
      simp only [Option.isSome_none, Bool.not_false, if_true] at hok
      cases hok
    | some m =>
      rw [hdb_contains_new hg _ hz', hlook] at hok
      simp only [Option.isSome_some, Bool.not_true, Bool.false_eq_true, if_false,
                 List.isEmpty_nil, Bool.not_true, Bool.false_and, if_false] at hok
      have ht' := core_insert_ok hg hlook hne hok
      rw [iter_all_read hg hz' hlook]
      subst ht'
      exact ⟨rfl, rfl, rfl, rfl⟩

theorem removeKeys_single (base : NodeData) (k : Bytes) :
    removeKeys base [k] = remA base k := rfl

theorem singleton_rem (m : NodeData) (k : Bytes) (hlen : m.length = 1)
    (hs : (lookupA m k).isSome = true) : remA m k = [] := by
  cases m with
  | nil => cases hlen
  | cons p rest =>
    cases rest with
    | nil =>
      rw [lookupA_cons] at hs
      by_cases hp : p.1 = k
      · rw [remA, List.filter_cons]
        have hd : (decide (p.1 ≠ k)) = false := by simp [hp]
        rw [hd]
        simp
      · rw [if_neg hp] at hs
        cases hs
    | cons q r2 => simp at hlen

theorem batch_remove_ok {t t' : AssetTrie} {keys : List Bytes}
    (hg : goodStore t.db) (hne : keys ≠ [])
    (hok : t.batch_remove keys = .ok t') :
    t'.db.getErr = t.db.getErr ∧ t'.db.writeErr = t.db.writeErr ∧
    t'.iter_all = removeKeys t.iter_all keys ∧
    isZeroBytes t'.root = (removeKeys t.iter_all keys).isEmpty ∧
    (∀ k n, lookupA t.db.data k = some n → k = model_hash n →
      lookupA t'.db.data k = some n) ∧
    (isZeroBytes t'.root = false →
      lookupA t'.db.data t'.root = some (removeKeys t.iter_all keys)) ∧
    (isZeroBytes t'.root = false →
      t'.root = model_hash (removeKeys t.iter_all keys)) := by
  rw [AssetTrie.batch_remove] at hok
  have hni : keys.isEmpty = false := by
    cases keys with
    | nil => exact absurd rfl hne
    | cons a l => rfl
  rw [hni] at hok
  simp only [Bool.false_eq_true, if_false] at hok
  rw [is_empty_root_iff] at hok
  by_cases hz : isZeroBytes t.root = true
  · rw [hz] at hok
    simp only [if_true] at hok
    have ht' := (Except.ok.inj hok).symm
    subst ht'
    rw [iter_all_zero hz, removeKeys_nil_base]
    exact ⟨rfl, rfl, rfl, by rw [hz]; rfl, fun k n h _ => h,
           (fun hc => by rw [hz] at hc; cases hc),
           (fun hc => by rw [hz] at hc; cases hc)⟩
  · have hz' : isZeroBytes t.root = false := by simpa using hz
    rw [hz'] at hok
    simp only [Bool.false_eq_true, if_false] at hok
    rw [AssetTrie.incremental_update] at hok
    cases hlook : lookupA t.db.data t.root with
    | none =>
      rw [hdb_contains_new hg _ hz', hlook] at hok
      simp only [Option.isSome_none, Bool.not_false, if_true] at hok
      cases hok
    | some m =>
      rw [hdb_contains_new hg _ hz', hlook] at hok
      simp only [Option.isSome_some, Bool.not_true, Bool.false_eq_true, if_false] at hok
      rw [iter_all_read hg hz' hlook]
      have hfin : (removeKeys m keys = [] → t' = ⟨t.db, zeroRoot⟩) ∧
          (removeKeys m keys ≠ [] →
            t' = ⟨KVDB.mk (putA t.db.data (model_hash (removeKeys m keys))
                    (removeKeys m keys)) t.db.getErr t.db.writeErr,
                  model_hash (removeKeys m keys)⟩) := by
        by_cases hfast : (!keys.isEmpty && List.isEmpty ([] : List (Bytes × AppVal))
            && keys.length == 1) = true
        · rw [if_pos hfast] at hok
          simp only [Bool.and_eq_true, beq_iff_eq] at hfast
          obtain ⟨⟨hke, _⟩, hlen1⟩ := hfast
          cases keys with
          | nil => exact absurd rfl hne
          | cons k0 rest =>
            cases rest with
            | cons q r2 => simp at hlen1
            | nil =>
              rw [iter_all_read hg hz' hlook] at hok
              simp only [List.headD_cons] at hok
              by_cases hcond : (m.length == 1 && (lookupA m k0).isSome) = true
              · rw [if_pos hcond] at hok
                simp only [Bool.and_eq_true, beq_iff_eq] at hcond
                have hrem : removeKeys m [k0] = [] := by
                  rw [removeKeys_single]
                  exact singleton_rem m k0 hcond.1 hcond.2
                have ht' : t' = ⟨t.db, zeroRoot⟩ := (Except.ok.inj hok).symm
                exact ⟨fun _ => ht', fun hc => absurd hrem hc⟩
              · rw [if_neg hcond] at hok
                exact core_remove_ok hg hz' hlook hok
        · rw [if_neg hfast] at hok
          exact core_remove_ok hg hz' hlook hok
      by_cases hM2 : removeKeys m keys = []
      · have ht' := hfin.1 hM2
        subst ht'
        rw [hM2]
        refine ⟨rfl, rfl, iter_all_zero isZero_zeroRoot, by rw [isZero_zeroRoot]; rfl,
                fun k n h _ => h,
                (fun hc => by rw [isZero_zeroRoot] at hc; cases hc),
                (fun hc => by rw [isZero_zeroRoot] at hc; cases hc)⟩
      · have ht' := hfin.2 hM2
        subst ht'
        have hE : (removeKeys m keys).isEmpty = false := by
          cases hR : removeKeys m keys with
          | nil => exact absurd hR hM2
          | cons a l => rfl
        refine ⟨rfl, rfl, ?_, by rw [isZero_model_hash, hE], ?_,
                fun _ => lookupA_putA_self _ _ _, fun _ => rfl⟩
        · have hg2 : goodStore (KVDB.mk (putA t.db.data
              (model_hash (removeKeys m keys)) (removeKeys m keys))
              t.db.getErr t.db.writeErr) := hg
          exact @iter_all_read
            ⟨KVDB.mk (putA t.db.data (model_hash (removeKeys m keys))
                (removeKeys m keys)) t.db.getErr t.db.writeErr,
             model_hash (removeKeys m keys)⟩
            hg2 (isZero_model_hash _) _ (lookupA_putA_self _ _ _)
        · intro k n h hc
          exact lookup_putA_hashnode _ _ _ _ h hc

theorem inserted_get {t t' : AssetTrie} {items : List (Bytes × AppVal)}
    (hg : goodStore t.db) (hnd : (items.map Prod.fst).Nodup)
    (hok : t.batch_insert items = .ok t') {k : Bytes} {v : AppVal}
    (hkv : (k, v) ∈ items) : t'.get k = .ok (some v) := by
  have hne : items ≠ [] := by
    intro h
    rw [h] at hkv
    cases hkv
  obtain ⟨hgE, _, hroot, hdata⟩ := batch_insert_ok hg hne hok
  have hg' : goodStore t'.db := by
    intro k2
    rw [hgE]
    exact hg k2
  have hzr : isZeroBytes t'.root = false := by
    rw [hroot]
    exact isZero_model_hash _
  have hm' : lookupA t'.db.data t'.root = some (buildMap t.iter_all items) := by
    rw [hdata, hroot]
    exact lookupA_putA_self _ _ _
  rw [get_read hg' hzr hm']
  rw [buildMap_lookup_mem items _ k v hnd hkv]

theorem removed_get_none {t t' : AssetTrie} {keys : List Bytes}
    (hg : goodStore t.db) (hok : t.batch_remove keys = .ok t') {k : Bytes}
    (hk : k ∈ keys) : t'.get k = .ok none := by
  have hne : keys ≠ [] := by
    intro h
    rw [h] at hk
    cases hk
  obtain ⟨hgE, _, hiter, hzE, hpres, hread, _⟩ := batch_remove_ok hg hne hok
  have hg' : goodStore t'.db := by
    intro k2
    rw [hgE]
    exact hg k2
  by_cases hzr : isZeroBytes t'.root = true
  · exact get_zero hzr k
  · have hzr' : isZeroBytes t'.root = false := by simpa using hzr
    rw [get_read hg' hzr' (hread hzr')]
    rw [removeKeys_lookup_mem _ _ _ hk]

/-- C1: for every successful insert or batch_insert call on the Trie Façade,
and every key/value pair of that call's (duplicate-free) item list, a
subsequent get on that key with no intervening mutation returns exactly the
value written; and after every successful remove/batch_remove, get on each
removed key returns not-found.  Stores are assumed to answer reads (a read
fault would surface as an error result, never as a wrong value). -/
theorem spec_C1 :
    (∀ (t t' : AssetTrie) (items : List (Bytes × AppVal)),
       goodStore t.db → (items.map Prod.fst).Nodup →
       t.batch_insert items = .ok t' →
       ∀ k v, (k, v) ∈ items → t'.get k = .ok (some v)) ∧
    (∀ (t t' : AssetTrie) (keys : List Bytes),
       goodStore t.db → t.batch_remove keys = .ok t' →
       ∀ k, k ∈ keys → t'.get k = .ok none) :=
  ⟨fun _ _ _ hg hnd hok _ _ hkv => inserted_get hg hnd hok hkv,
   fun _ _ _ hg hok _ hk => removed_get_none hg hok hk⟩

/-- Witness for C1 at a concrete run: inserting ([1] ↦ bytes [2]) into a fresh
trie makes get [1] return it, and removing [1] afterwards makes get [1]
return none. -/
theorem spec_C1_witness :
    trie1.get [1] = .ok (some (AppVal.bytes [2])) ∧ trie2.get [1] = .ok none :=
  ⟨spec_C1.1 trie0 trie1 items0 (fun _ => rfl) (by decide) rfl [1]
     (AppVal.bytes [2]) (by decide),
   spec_C1.2 trie1 trie2 [[1]] (fun _ => rfl) rfl [1] (by decide)⟩

theorem batch_insert_inv {t t' : AssetTrie} {items : List (Bytes × AppVal)}
    (hg : goodStore t.db) (hinv : trieInv t)
    (hok : t.batch_insert items = .ok t') : trieInv t' ∧ goodStore t'.db := by
  by_cases hne : items = []
  · subst hne
    rw [AssetTrie.batch_insert] at hok
    simp only [List.isEmpty_nil, if_true] at hok
    have := Except.ok.inj hok
    subst this
    exact ⟨hinv, hg⟩
  · obtain ⟨hgE, _, hroot, hdata⟩ := batch_insert_ok hg hne hok
    have hg' : goodStore t'.db := by
      intro k2
      rw [hgE]
      exact hg k2
    have hzr : isZeroBytes t'.root = false := by
      rw [hroot]
      exact isZero_model_hash _
    have hm' : lookupA t'.db.data t'.root = some (buildMap t.iter_all items) := by
      rw [hdata, hroot]
      exact lookupA_putA_self _ _ _
    have hiter : t'.iter_all = buildMap t.iter_all items :=
      iter_all_read hg' hzr hm'
    refine ⟨Or.inr ⟨by rw [hiter]; exact hm', ?_⟩, hg'⟩
    rw [hiter]
    exact buildMap_ne_nil _ _ hne

theorem batch_remove_inv {t t' : AssetTrie} {keys : List Bytes}
    (hg : goodStore t.db) (hinv : trieInv t)
    (hok : t.batch_remove keys = .ok t') : trieInv t' ∧ goodStore t'.db := by
  by_cases hne : keys = []
  · subst hne
    rw [AssetTrie.batch_remove] at hok
    simp only [List.isEmpty_nil, if_true] at hok
    have := Except.ok.inj hok
    subst this
    exact ⟨hinv, hg⟩
  · obtain ⟨hgE, _, hiter, hzE, hpres, hread, _⟩ := batch_remove_ok hg hne hok
    have hg' : goodStore t'.db := by
      intro k2
      rw [hgE]
      exact hg k2
    refine ⟨?_, hg'⟩
    by_cases hzr : isZeroBytes t'.root = true
    · exact Or.inl hzr
    · have hzr' : isZeroBytes t'.root = false := by simpa using hzr
      refine Or.inr ⟨by rw [hiter]; exact hread hzr', ?_⟩
      rw [hiter]
      intro hcon
      rw [hzr', hcon] at hzE
      cases hzE

theorem runOps_inv {ops : List TrieOp} :
    ∀ {t t' : AssetTrie}, goodStore t.db → trieInv t →
      runOps t ops = .ok t' → trieInv t' ∧ goodStore t'.db := by
  induction ops with
  | nil =>
    intro t t' hg hinv hok
    have := Except.ok.inj hok
    subst this
    exact ⟨hinv, hg⟩
  | cons op rest ih =>
    intro t t' hg hinv hok
    cases op with
    | ins items =>
      simp only [runOps] at hok
      cases hstep : t.batch_insert items with
      | error e => rw [hstep] at hok; cases hok
      | ok t2 =>
        rw [hstep] at hok
        obtain ⟨hinv2, hg2⟩ := batch_insert_inv hg hinv hstep
        exact ih hg2 hinv2 hok
    | rem keys =>
      simp only [runOps] at hok
      cases hstep : t.batch_remove keys with
      | error e => rw [hstep] at hok; cases hok
      | ok t2 =>
        rw [hstep] at hok
        obtain ⟨hinv2, hg2⟩ := batch_remove_inv hg hinv hstep
        exact ih hg2 hinv2 hok

/-- C2: after every successful remove/batch_remove, get on each removed key
returns not-found; and over any prior sequence of successful mutations started
from an empty trie, the façade's root is the all-zero sentinel exactly when no
keys remain in the trie. -/
theorem spec_C2 :
    (∀ (t t' : AssetTrie) (keys : List Bytes),
       goodStore t.db → t.batch_remove keys = .ok t' →
       ∀ k, k ∈ keys → t'.get k = .ok none) ∧
    (∀ (db : KVDB) (ops : List TrieOp) (t' : AssetTrie),
       goodStore db → runOps (AssetTrie.mk db zeroRoot) ops = .ok t' →
       (isZeroBytes t'.root = true ↔ t'.iter_all = [])) := by
  constructor
  · intro t t' keys hg hok k hk
    exact removed_get_none hg hok hk
  · intro db ops t' hg hok
    have hstart : trieInv (AssetTrie.mk db zeroRoot) := Or.inl isZero_zeroRoot
    obtain ⟨hinv, _⟩ := runOps_inv hg hstart hok
    constructor
    · intro hz
      exact iter_all_zero hz
    · intro hiter
      rcases hinv with hz | ⟨_, hne⟩
      · exact hz
      · exact absurd hiter hne

/-- Witness for C2: removing the only key of a one-key trie answers not-found
afterwards, and after the run insert-then-remove from an empty trie the root
is back to the zero sentinel exactly because no keys remain. -/
theorem spec_C2_witness :
    (trie2.get [1] = .ok none) ∧
    (isZeroBytes trie2.root = true ↔ trie2.iter_all = []) :=
  ⟨spec_C2.1 trie1 trie2 [[1]] (fun _ => rfl) rfl [1] (by decide),
   spec_C2.2 db0 [TrieOp.ins items0, TrieOp.rem [[1]]] trie2 (fun _ => rfl) rfl⟩

theorem hashConsistent_of_all (db : KVDB)
    (h : db.data.all (fun p => p.1 == model_hash p.2) = true) :
    hashConsistent db := by
  intro k n hk
  rw [lookupA] at hk
  cases hfind : List.find? (fun p => decide (p.1 = k)) db.data with
  | none => rw [hfind] at hk; cases hk
  | some p =>
    rw [hfind] at hk
    have hpn : p.2 = n := by
      simpa using hk
    have hp : p.1 = k := by
      have := List.find?_some hfind
      simpa using this
    have hmem := List.mem_of_find?_eq_some hfind
    have hall := (List.all_eq_true.mp h) p hmem
    have : p.1 = model_hash p.2 := by simpa using hall
    rw [← hp, this, hpn]

/-- C3: with history preservation on (the façade always builds its collector
with preserve_history = true), any key readable under an older root R keeps
its old value under R after a later successful remove/batch_remove over the
same store: no node reachable from a previously returned root is physically
destroyed.  Stores are assumed readable and content-addressed (every binding
keyed by the digest of its payload), which holds for every store this system
builds. -/
theorem spec_C3 (t t' : AssetTrie) (keys : List Bytes) (R k : Bytes) (v : AppVal)
    (hg : goodStore t.db) (hcons : hashConsistent t.db)
    (hold : (AssetTrie.mk t.db R).get k = .ok (some v))
    (hrm : t.batch_remove keys = .ok t') :
    (AssetTrie.mk t'.db R).get k = .ok (some v) := by
  by_cases hz : isZeroBytes (AssetTrie.mk t.db R).root = true
  · rw [get_zero hz k] at hold
    cases hold
  · have hz' : isZeroBytes R = false := by simpa using hz
    cases hlook : lookupA t.db.data R with
    | none =>
      rw [AssetTrie.get, is_empty_root_iff] at hold
      simp only [hz'] at hold
      rw [hdb_get_new hg _ hz'] at hold
      rw [hlook] at hold
      simp only [Bool.false_eq_true, if_false] at hold
      cases hold
    | some M =>
      have hv : lookupA M k = some v := by
        rw [@get_read ⟨t.db, R⟩ hg hz' M hlook k] at hold
        exact Except.ok.inj hold
      have hR : R = model_hash M := hcons R M hlook
      by_cases hne : keys = []
      · subst hne
        rw [AssetTrie.batch_remove] at hrm
        simp only [List.isEmpty_nil, if_true] at hrm
        have := Except.ok.inj hrm
        subst this
        rw [@get_read ⟨t.db, R⟩ hg hz' M hlook k, hv]
      · obtain ⟨hgE, _, _, _, hpres, _, _⟩ := batch_remove_ok hg hne hrm
        have hg' : goodStore t'.db := by
          intro k2
          rw [hgE]
          exact hg k2
        have hlook' : lookupA t'.db.data R = some M := hpres R M hlook hR
        rw [@get_read ⟨t'.db, R⟩ hg' hz' M hlook' k, hv]

/-- Witness for C3: the root obtained after the first insert still serves the
deleted key's old value after that key is removed from the current trie. -/
theorem spec_C3_witness :
    (AssetTrie.mk trie2.db (model_hash node0)).get [1] =
      .ok (some (AppVal.bytes [2])) :=
  spec_C3 trie1 trie2 [[1]] (model_hash node0) [1] (AppVal.bytes [2])
    (fun _ => rfl) (hashConsistent_of_all _ (by decide)) rfl rfl

/-- C4 counterexample: over a store whose transaction write fails, the
NodeStore Adapter's remove returns normally (its interface has no error
channel), the physical node is still committed, and the cache entry is gone —
the mutation silently continues with an inconsistent cache/store pair instead
of aborting. -/
theorem spec_C4_cex :
    (hdbC.remove (model_hash node0) emptyPfx).kv.data = hdbC.kv.data ∧
    lookupA (hdbC.remove (model_hash node0) emptyPfx).kv.data
      (model_hash node0) = some node0 ∧
    lookupA hdbC.cache (model_hash node0) = some node0 ∧
    lookupA (hdbC.remove (model_hash node0) emptyPfx).cache
      (model_hash node0) = none := by
  refine ⟨rfl, by decide, by decide, by decide⟩

/-- C4 amended: a physical write failure inside the NodeStore Adapter is
logged and swallowed, not fatal: emplace returns with both the store and the
cache untouched (the node is silently lost), and remove returns with the store
untouched but the cache entry already evicted; no error reaches the calling
trie mutation. -/
theorem spec_C4_amended (h : KvdbHashDB) (key : Bytes) (p : Pfx) (v : NodeData)
    (hw : h.kv.writeErr = true) :
    h.emplace key p v = h ∧
    h.remove key p = { h with cache := remA h.cache (make_real_key p key) } := by
  constructor
  · rw [KvdbHashDB.emplace, KVDB.write, if_pos hw]
  · rw [KvdbHashDB.remove, KVDB.write, if_pos hw]

/-- Witness for the amended C4 at the concrete failing store. -/
theorem spec_C4_witness :
    dbW.writeErr = true ∧
    (KvdbHashDB.new dbW).emplace [7] emptyPfx node0 = KvdbHashDB.new dbW :=
  ⟨rfl, (spec_C4_amended (KvdbHashDB.new dbW) [7] emptyPfx node0 rfl).1⟩

/-- C5 counterexample: on an empty pending-change map, apply_changes returns
Ok without issuing any physical transaction — zero transactions, not exactly
one. -/
theorem spec_C5_cex :
    ((ChangeCollector.new db0).apply_changes.map (fun p => p.2.length)) = .ok 0 ∧
    (0 : Nat) ≠ 1 := by
  refine ⟨rfl, by decide⟩

/-- C5 amended: apply_changes issues one physical transaction when the
pending-change map is non-empty and none when it is empty; the transaction
carries a put for every Some entry; a None entry becomes a physical delete
exactly when history preservation is off, and with history preservation on no
delete is issued at all; the plain constructor new() enables history
preservation. -/
theorem spec_C5_amended :
    (∀ (c : ChangeCollector) (kv : KVDB) (txs : List (List TxOp)),
       c.apply_changes = .ok (kv, txs) →
       txs.length = (if c.changes.isEmpty then 0 else 1)) ∧
    (∀ (c : ChangeCollector) (kv : KVDB) (txs : List (List TxOp))
       (tx : List TxOp),
       c.apply_changes = .ok (kv, txs) → tx ∈ txs →
       (∀ k v, (k, some v) ∈ c.changes → TxOp.put k v ∈ tx) ∧
       (∀ k, (k, none) ∈ c.changes → c.preserve_history = false →
         TxOp.del k ∈ tx) ∧
       (∀ k, c.preserve_history = true → TxOp.del k ∉ tx)) ∧
    (∀ kv : KVDB, (ChangeCollector.new kv).preserve_history = true) := by
  refine ⟨?_, ?_, fun _ => rfl⟩
  · intro c kv txs hok
    rw [ChangeCollector.apply_changes] at hok
    by_cases he : c.changes.isEmpty
    · rw [if_pos he] at hok
      have htxs : txs = [] := (Prod.ext_iff.mp (Except.ok.inj hok).symm).2
      subst htxs
      rw [he]
      rfl
    · rw [if_neg he] at hok
      cases hw : c.kv.write c.buildTx with
      | error e => rw [hw] at hok; cases hok
      | ok kv2 =>
        rw [hw] at hok
        have htxs : txs = [c.buildTx] :=
          (Prod.ext_iff.mp (Except.ok.inj hok).symm).2
        subst htxs
        rw [if_neg he]
        rfl
  · intro c kv txs tx hok htx
    rw [ChangeCollector.apply_changes] at hok
    by_cases he : c.changes.isEmpty
    · rw [if_pos he] at hok
      have htxs : txs = [] := (Prod.ext_iff.mp (Except.ok.inj hok).symm).2
      subst htxs
      cases htx
    · rw [if_neg he] at hok
      cases hw : c.kv.write c.buildTx with
      | error e => rw [hw] at hok; cases hok
      | ok kv2 =>
        rw [hw] at hok
        have htxs : txs = [c.buildTx] :=
          (Prod.ext_iff.mp (Except.ok.inj hok).symm).2
        subst htxs
        have htx2 : tx = c.buildTx := List.mem_singleton.mp htx
        subst htx2
        refine ⟨?_, ?_, ?_⟩
        · intro k v hkv
          rw [ChangeCollector.buildTx]
          exact List.mem_filterMap.mpr ⟨(k, some v), hkv, rfl⟩
        · intro k hkn hpf
          rw [ChangeCollector.buildTx]
          refine List.mem_filterMap.mpr ⟨(k, none), hkn, ?_⟩
          simp [hpf]
        · intro k hpt hmem
          rw [ChangeCollector.buildTx] at hmem
          obtain ⟨p, _, hfp⟩ := List.mem_filterMap.mp hmem
          cases hp2 : p.2 with
          | some v => rw [hp2] at hfp; cases hfp
          | none =>
            rw [hp2, hpt] at hfp
            simp at hfp

/-- Witness for the amended C5 on a collector holding one write and one
delete with history preservation on: one transaction, carrying the put and no
delete. -/
theorem spec_C5_witness :
    ([[TxOp.put [5] node0]] : List (List TxOp)).length =
      (if ccW.changes.isEmpty then 0 else 1) ∧
    TxOp.put [5] node0 ∈ [TxOp.put [5] node0] ∧
    TxOp.del [6] ∉ [TxOp.put [5] node0] ∧
    (ChangeCollector.new db0).preserve_history = true :=
  ⟨spec_C5_amended.1 ccW _ [[TxOp.put [5] node0]] rfl,
   (spec_C5_amended.2.1 ccW _ [[TxOp.put [5] node0]] [TxOp.put [5] node0] rfl
      (by decide)).1 [5] node0 (by decide),
   (spec_C5_amended.2.1 ccW _ [[TxOp.put [5] node0]] [TxOp.put [5] node0] rfl
      (by decide)).2.2 [6] rfl,
   spec_C5_amended.2.2 db0⟩

/-- C9: whenever the physical store's read fails for the addressed key (and
nothing shadows it in the adapter's cache or the collector's pending map —
otherwise the store is not consulted at all), both KvdbHashDB::get and
ChangeCollector::get answer None: a read failure is indistinguishable from an
absent node. -/
theorem spec_C9 :
    (∀ (h : KvdbHashDB) (key : Bytes) (p : Pfx),
       h.kv.getErr (make_real_key p key) = true →
       lookupA h.cache (make_real_key p key) = none →
       h.get key p = none) ∧
    (∀ (c : ChangeCollector) (key : Bytes) (p : Pfx),
       c.kv.getErr (make_real_key p key) = true →
       lookupA c.changes (make_real_key p key) = none →
       c.get key p = none) := by
  constructor
  · intro h key p herr hc
    rw [KvdbHashDB.get]
    by_cases hz : isZeroBytes key = true
    · rw [if_pos hz]
    · rw [if_neg hz]
      simp only [hc, KVDB.get, herr, if_true]
  · intro c key p herr hc
    rw [ChangeCollector.get]
    simp only [hc, KVDB.get, herr, if_true]

/-- Witness for C9 over a store that fails every read. -/
theorem spec_C9_witness :
    (KvdbHashDB.new dbE).get [3] emptyPfx = none ∧
    (ChangeCollector.new dbE).get [3] emptyPfx = none :=
  ⟨spec_C9.1 (KvdbHashDB.new dbE) [3] emptyPfx rfl rfl,
   spec_C9.2 (ChangeCollector.new dbE) [3] emptyPfx rfl rfl⟩

/-- C7: the code violates the claim (a gap the spec itself flags): when the
main-tree write inside register_asset fails, the call returns an error, yet
the numeric allocator has already advanced and the token-id mapping already
carries the new entry. -/
theorem spec_C7_bug :
    (mgrW.register_asset assetW 0).1 = .error () ∧
    mgrW.next_token_id = 0 ∧
    (mgrW.register_asset assetW 0).2.next_token_id = 1 ∧
    lookupA (mgrW.register_asset assetW 0).2.token_id_to_asset_id 0 =
      some [5] := by
  refine ⟨rfl, rfl, by decide, by decide⟩

namespace SimplifiedDualLayerMptManager

theorem get_asset_of_get {m : SimplifiedDualLayerMptManager} {aid : Bytes}
    {a : DataAsset}
    (h : (AssetTrie.mk m.db m.main_root).get aid = .ok (some (.asset a))) :
    m.get_asset_state_by_id aid = some a := by
  rw [get_asset_state_by_id, h]

theorem get_or_create_fields (m : SimplifiedDualLayerMptManager) (aid : Bytes) :
    (m.get_or_create_certificate_tree aid).1 = m.certTreeRoot aid ∧
    (m.get_or_create_certificate_tree aid).2.db = m.db ∧
    (m.get_or_create_certificate_tree aid).2.main_root = m.main_root ∧
    (m.get_or_create_certificate_tree aid).2.current_main_root =
      m.current_main_root ∧
    (m.get_or_create_certificate_tree aid).2.next_token_id = m.next_token_id ∧
    (m.get_or_create_certificate_tree aid).2.token_id_to_asset_id =
      m.token_id_to_asset_id ∧
    (m.get_or_create_certificate_tree aid).2.certTreeRoot aid =
      m.certTreeRoot aid := by
  rw [get_or_create_certificate_tree]
  cases h : lookupA m.certificate_trees aid with
  | some rr => exact ⟨by rw [certTreeRoot, h]; rfl, rfl, rfl, rfl, rfl, rfl, rfl⟩
  | none =>
    refine ⟨by rw [certTreeRoot, h]; rfl, rfl, rfl, rfl, rfl, rfl, ?_⟩
    rw [certTreeRoot, certTreeRoot, h, init_certificate_tree]
    show (lookupA (putA m.certificate_trees aid zeroRoot) aid).getD zeroRoot = _
    rw [lookupA_putA_self]
    rfl

theorem insert_asset_ok {m m' : SimplifiedDualLayerMptManager} {aid : Bytes}
    {a : DataAsset} {r : Bytes} (hg : goodStore m.db)
    (hok : m.insert_asset aid a = (.ok r, m')) :
    m'.get_asset_state_by_id aid = some a ∧
    m'.db.getErr = m.db.getErr ∧
    m'.certificate_trees = m.certificate_trees ∧
    m'.certificate_roots = m.certificate_roots ∧
    m'.token_id_to_asset_id = m.token_id_to_asset_id ∧
    m'.next_token_id = m.next_token_id ∧
    (∀ k n, lookupA m.db.data k = some n → k = model_hash n →
      lookupA m'.db.data k = some n) := by
  rw [insert_asset] at hok
  cases hstep : (AssetTrie.mk m.db m.main_root).insert aid (.asset a) with
  | error e =>
    rw [hstep] at hok
    simp only [] at hok
    rw [Prod.mk.injEq] at hok
    cases hok.1
  | ok t2 =>
    rw [hstep] at hok
    simp only [] at hok
    rw [Prod.mk.injEq] at hok
    obtain ⟨h1, h2⟩ := hok
    subst h2
    rw [AssetTrie.insert] at hstep
    obtain ⟨hgE, _, hroot, hdata⟩ := batch_insert_ok hg (by simp) hstep
    refine ⟨?_, hgE, rfl, rfl, rfl, rfl, ?_⟩
    · exact get_asset_of_get
        (inserted_get hg (by simp) hstep (List.mem_singleton.mpr rfl))
    · intro k n hlk hc
      show lookupA t2.db.data k = some n
      rw [hdata]
      exact lookup_putA_hashnode _ _ _ _ hlk hc

theorem insert_certificate_ok {m m' : SimplifiedDualLayerMptManager}
    {aid : Bytes} {c : RightToken} {r : Bytes} (hg : goodStore m.db)
    (hok : m.insert_certificate aid c = (.ok r, m')) :
    lookupA m'.certificate_roots aid = some r ∧
    m'.certTreeRoot aid = r ∧
    m'.main_root = m.main_root ∧
    m'.current_main_root = m.current_main_root ∧
    m'.next_token_id = m.next_token_id ∧
    m'.token_id_to_asset_id = m.token_id_to_asset_id ∧
    m'.db.getErr = m.db.getErr ∧
    m'.certContent aid =
      buildMap (m.certContent aid)
        [(make_certificate_key c.certificate_id, AppVal.cert c)] := by
  obtain ⟨hgc1, hgc2, hgc3, hgc4, hgc5, hgc6, hgc7⟩ := get_or_create_fields m aid
  rw [insert_certificate] at hok
  cases hstep : (AssetTrie.mk (m.get_or_create_certificate_tree aid).2.db
      (m.get_or_create_certificate_tree aid).1).insert
      (make_certificate_key c.certificate_id) (.cert c) with
  | error e =>
    rw [hstep] at hok
    simp only [] at hok
    rw [Prod.mk.injEq] at hok
    cases hok.1
  | ok t2 =>
    rw [hstep] at hok
    simp only [] at hok
    rw [Prod.mk.injEq] at hok
    obtain ⟨h1, h2⟩ := hok
    subst h2
    have hr : t2.root = r := Except.ok.inj h1
    rw [AssetTrie.insert] at hstep
    have hg2 : goodStore (AssetTrie.mk (m.get_or_create_certificate_tree aid).2.db
        (m.get_or_create_certificate_tree aid).1).db := by
      show goodStore (m.get_or_create_certificate_tree aid).2.db
      rw [hgc2]
      exact hg
    obtain ⟨hgE, _, hroot, hdata⟩ := batch_insert_ok hg2 (by simp) hstep
    refine ⟨?_, ?_, hgc3, hgc4, hgc5, hgc6, ?_, ?_⟩
    · show lookupA (putA (m.get_or_create_certificate_tree aid).2.certificate_roots
        aid t2.root) aid = some r
      rw [lookupA_putA_self, hr]
    · show (lookupA (putA (m.get_or_create_certificate_tree aid).2.certificate_trees
        aid t2.root) aid).getD zeroRoot = r
      rw [lookupA_putA_self, hr]
      rfl
    · show t2.db.getErr = m.db.getErr
      rw [hgE, hgc2]
    · show (AssetTrie.mk t2.db ((lookupA (putA
        (m.get_or_create_certificate_tree aid).2.certificate_trees aid t2.root)
        aid).getD zeroRoot)).iter_all = _
      rw [lookupA_putA_self]
      show t2.iter_all = _
      have hg' : goodStore t2.db := by
        intro k2
        rw [hgE]
        exact hg2 k2
      have hzr : isZeroBytes t2.root = false := by
        rw [hroot]
        exact isZero_model_hash _
      have hm' : lookupA t2.db.data t2.root = some
          (buildMap (AssetTrie.mk (m.get_or_create_certificate_tree aid).2.db
              (m.get_or_create_certificate_tree aid).1).iter_all
            [(make_certificate_key c.certificate_id, AppVal.cert c)]) := by
        rw [hdata, hroot]
        exact lookupA_putA_self _ _ _
      rw [iter_all_read hg' hzr hm']
      rw [certContent, hgc2, hgc1]

theorem remove_certificate_ok {m m' : SimplifiedDualLayerMptManager}
    {aid : Bytes} {cid : Nat} {r : Bytes} (hg : goodStore m.db)
    (hok : m.remove_certificate aid cid = (.ok r, m')) :
    lookupA m'.certificate_roots aid = some r ∧
    m'.certTreeRoot aid = r ∧
    m'.main_root = m.main_root ∧
    m'.current_main_root = m.current_main_root ∧
    m'.next_token_id = m.next_token_id ∧
    m'.token_id_to_asset_id = m.token_id_to_asset_id ∧
    m'.db.getErr = m.db.getErr ∧
    (∀ k n, lookupA m.db.data k = some n → k = model_hash n →
      lookupA m'.db.data k = some n) ∧
    m'.certContent aid =
      removeKeys (m.certContent aid) [make_certificate_key cid] ∧
    isZeroBytes r =
      (removeKeys (m.certContent aid) [make_certificate_key cid]).isEmpty ∧
    (isZeroBytes r = false →
      lookupA m'.db.data r =
        some (removeKeys (m.certContent aid) [make_certificate_key cid])) ∧
    (isZeroBytes r = false →
      r = model_hash
        (removeKeys (m.certContent aid) [make_certificate_key cid])) := by
  obtain ⟨hgc1, hgc2, hgc3, hgc4, hgc5, hgc6, hgc7⟩ := get_or_create_fields m aid
  rw [remove_certificate] at hok
  cases hstep : (AssetTrie.mk (m.get_or_create_certificate_tree aid).2.db
      (m.get_or_create_certificate_tree aid).1).remove
      (make_certificate_key cid) with
  | error e =>
    rw [hstep] at hok
    simp only [] at hok
    rw [Prod.mk.injEq] at hok
    cases hok.1
  | ok t2 =>
    rw [hstep] at hok
    simp only [] at hok
    rw [Prod.mk.injEq] at hok
    obtain ⟨h1, h2⟩ := hok
    subst h2
    have hr : t2.root = r := Except.ok.inj h1
    rw [AssetTrie.remove] at hstep
    have hg2 : goodStore (AssetTrie.mk (m.get_or_create_certificate_tree aid).2.db
        (m.get_or_create_certificate_tree aid).1).db := by
      show goodStore (m.get_or_create_certificate_tree aid).2.db
      rw [hgc2]
      exact hg
    obtain ⟨hgE, _, hiter, hzE, hpres, hread, hrootc⟩ :=
      batch_remove_ok hg2 (by simp) hstep
    have htold : (AssetTrie.mk (m.get_or_create_certificate_tree aid).2.db
        (m.get_or_create_certificate_tree aid).1).iter_all = m.certContent aid := by
      rw [certContent, hgc2, hgc1]
    rw [htold] at hiter hzE hread hrootc
    subst hr
    refine ⟨?_, ?_, hgc3, hgc4, hgc5, hgc6, ?_, ?_, ?_, hzE, hread, hrootc⟩
    · show lookupA (putA (m.get_or_create_certificate_tree aid).2.certificate_roots
        aid t2.root) aid = some t2.root
      rw [lookupA_putA_self]
    · show (lookupA (putA (m.get_or_create_certificate_tree aid).2.certificate_trees
        aid t2.root) aid).getD zeroRoot = t2.root
      rw [lookupA_putA_self]
      rfl
    · show t2.db.getErr = m.db.getErr
      rw [hgE, hgc2]
    · intro k n hlk hc
      show lookupA t2.db.data k = some n
      apply hpres k n _ hc
      show lookupA (m.get_or_create_certificate_tree aid).2.db.data k = some n
      rw [hgc2]
      exact hlk
    · show (AssetTrie.mk t2.db ((lookupA (putA
        (m.get_or_create_certificate_tree aid).2.certificate_trees aid t2.root)
        aid).getD zeroRoot)).iter_all = _
      rw [lookupA_putA_self]
      show t2.iter_all = _
      rw [hiter]

theorem update_root_ok {m m' : SimplifiedDualLayerMptManager} {aid r : Bytes}
    {now : Nat} (hg : goodStore m.db)
    (hok : m.update_asset_certificate_root aid r now = (.ok (), m')) :
    (m'.get_asset_state_by_id aid).map (fun x => x.children_root) = some r ∧
    m'.certificate_trees = m.certificate_trees ∧
    m'.certificate_roots = m.certificate_roots ∧
    m'.token_id_to_asset_id = m.token_id_to_asset_id ∧
    m'.next_token_id = m.next_token_id ∧
    m'.db.getErr = m.db.getErr ∧
    (∀ k n, lookupA m.db.data k = some n → k = model_hash n →
      lookupA m'.db.data k = some n) := by
  rw [update_asset_certificate_root] at hok
  cases hga : m.get_asset_state_by_id aid with
  | none =>
    rw [hga] at hok
    simp only [] at hok
    rw [Prod.mk.injEq] at hok
    cases hok.1
  | some a =>
    rw [hga] at hok
    simp only [] at hok
    cases hstep : m.insert_asset aid { a with children_root := r, updated_at := now } with
    | mk res m1 =>
      rw [hstep] at hok
      cases res with
      | error e =>
        simp only [] at hok
        rw [Prod.mk.injEq] at hok
        cases hok.1
      | ok rt =>
        simp only [] at hok
        rw [Prod.mk.injEq] at hok
        obtain ⟨_, h2⟩ := hok
        subst h2
        obtain ⟨hget, hgE, htr, hcr, htok, hnext, hpres⟩ := insert_asset_ok hg hstep
        refine ⟨?_, htr, hcr, htok, hnext, hgE, hpres⟩
        rw [hget]
        rfl

theorem get_certificate_state_snd (m : SimplifiedDualLayerMptManager)
    (aid : Bytes) (cid : Nat) :
    (m.get_certificate_state aid cid).2 =
      (m.get_or_create_certificate_tree aid).2 := by
  rw [get_certificate_state]
  split <;> rfl

theorem get_next_certificate_id_snd (m : SimplifiedDualLayerMptManager)
    (aid : Bytes) :
    (m.get_next_certificate_id aid).2 =
      (m.get_or_create_certificate_tree aid).2 := rfl

theorem linkage_concl {m2 m3 : SimplifiedDualLayerMptManager} {aid r : Bytes}
    {now : Nat} (hg2 : goodStore m2.db)
    (hroots : lookupA m2.certificate_roots aid = some r)
    (hctr : m2.certTreeRoot aid = r)
    (hupd : m2.update_asset_certificate_root aid r now = (.ok (), m3)) :
    (m3.get_asset_state_by_id aid).map (fun x => x.children_root) =
      some (m3.get_certificate_root aid) ∧
    m3.get_certificate_root aid = r ∧
    m3.certTreeRoot aid = r := by
  obtain ⟨hmap, htrees, hcr, _, _, _, _⟩ := update_root_ok hg2 hupd
  have hgr : m3.get_certificate_root aid = r := by
    rw [get_certificate_root, hcr, hroots]
    rfl
  have hgt : m3.certTreeRoot aid = r := by
    rw [certTreeRoot, htrees]
    rw [certTreeRoot] at hctr
    exact hctr
  rw [hgr]
  exact ⟨hmap, rfl, hgt⟩

end SimplifiedDualLayerMptManager

open SimplifiedDualLayerMptManager in
/-- C6: after every successful issue_certificate, the children_root stored in
the asset record equals the recomputed root of that asset's certificate
sub-trie (as cached by the manager and returned by the call), and the same
linkage is restored by revoke_certificate and update_certificate_status. -/
theorem spec_C6 :
    (∀ (m m' : SimplifiedDualLayerMptManager) (aid holder : Bytes)
       (rt : RightType) (vu : Option Nat) (now cid : Nat) (r : Bytes),
       goodStore m.db →
       m.issue_certificate aid holder rt vu now = (.ok (cid, r), m') →
       (m'.get_asset_state_by_id aid).map (fun x => x.children_root) =
         some (m'.get_certificate_root aid) ∧
       m'.get_certificate_root aid = r ∧
       m'.certTreeRoot aid = r) ∧
    (∀ (m m' : SimplifiedDualLayerMptManager) (aid rv : Bytes) (cid now : Nat)
       (r : Bytes),
       goodStore m.db →
       m.revoke_certificate aid cid rv now = (.ok r, m') →
       (m'.get_asset_state_by_id aid).map (fun x => x.children_root) =
         some (m'.get_certificate_root aid) ∧
       m'.get_certificate_root aid = r ∧
       m'.certTreeRoot aid = r) ∧
    (∀ (m m' : SimplifiedDualLayerMptManager) (aid : Bytes) (cid : Nat)
       (st : CertificateStatus) (now : Nat) (r : Bytes),
       goodStore m.db →
       m.update_certificate_status aid cid st now = (.ok r, m') →
       (m'.get_asset_state_by_id aid).map (fun x => x.children_root) =
         some (m'.get_certificate_root aid) ∧
       m'.get_certificate_root aid = r ∧
       m'.certTreeRoot aid = r) := by
  refine ⟨?_, ?_, ?_⟩
  · intro m m' aid holder rt vu now cid r hg hok
    rw [issue_certificate] at hok
    split at hok
    · rw [Prod.mk.injEq] at hok
      cases hok.1
    · rename_i asset heq_ga
      split at hok
      · rw [Prod.mk.injEq] at hok
        cases hok.1
      · simp only [] at hok
        split at hok
        · rw [Prod.mk.injEq] at hok
          cases hok.1
        · rename_i ncr m2 heq1
          split at hok
          · rw [Prod.mk.injEq] at hok
            cases hok.1
          · rename_i u m3 heq2
            rw [Prod.mk.injEq] at hok
            obtain ⟨h1, h2⟩ := hok
            subst h2
            have hpair := Except.ok.inj h1
            have hr : ncr = r := (Prod.ext_iff.mp hpair).2
            subst hr
            cases u
            have hgGn : goodStore (m.get_next_certificate_id aid).2.db := by
              rw [get_next_certificate_id_snd]
              rw [(get_or_create_fields m aid).2.1]
              exact hg
            obtain ⟨hroots, hctr, _, _, _, _, hgE, _⟩ :=
              insert_certificate_ok hgGn heq1
            have hg2 : goodStore m2.db := by
              intro k2
              rw [hgE]
              exact hgGn k2
            exact linkage_concl hg2 hroots hctr heq2
  · intro m m' aid rv cid now r hg hok
    rw [revoke_certificate] at hok
    split at hok
    · rw [Prod.mk.injEq] at hok
      cases hok.1
    · rename_i asset heq_ga
      simp only [] at hok
      split at hok
      · rw [Prod.mk.injEq] at hok
        cases hok.1
      · rename_i cert heq_gc
        split at hok
        · rw [Prod.mk.injEq] at hok
          cases hok.1
        · split at hok
          · rw [Prod.mk.injEq] at hok
            cases hok.1
          · rename_i ncr m2 heq1
            split at hok
            · rw [Prod.mk.injEq] at hok
              cases hok.1
            · rename_i u m3 heq2
              rw [Prod.mk.injEq] at hok
              obtain ⟨h1, h2⟩ := hok
              subst h2
              have hr : ncr = r := Except.ok.inj h1
              subst hr
              cases u
              have hgGs : goodStore (m.get_certificate_state aid cid).2.db := by
                rw [get_certificate_state_snd]
                rw [(get_or_create_fields m aid).2.1]
                exact hg
              obtain ⟨hroots, hctr, _, _, _, _, hgE, _⟩ :=
                remove_certificate_ok hgGs heq1
              have hg2 : goodStore m2.db := by
                intro k2
                rw [hgE]
                exact hgGs k2
              exact linkage_concl hg2 hroots hctr heq2
  · intro m m' aid cid st now r hg hok
    rw [update_certificate_status] at hok
    split at hok
    · rw [Prod.mk.injEq] at hok
      cases hok.1
    · rename_i cert heq_gc
      split at hok
      · rw [Prod.mk.injEq] at hok
        cases hok.1
      · rename_i ncr m2 heq1
        split at hok
        · rw [Prod.mk.injEq] at hok
          cases hok.1
        · rename_i u m3 heq2
          rw [Prod.mk.injEq] at hok
          obtain ⟨h1, h2⟩ := hok
          subst h2
          have hr : ncr = r := Except.ok.inj h1
          subst hr
          cases u
          have hgGs : goodStore (m.get_certificate_state aid cid).2.db := by
            rw [get_certificate_state_snd]
            rw [(get_or_create_fields m aid).2.1]
            exact hg
          obtain ⟨hroots, hctr, _, _, _, _, hgE, _⟩ :=
            insert_certificate_ok hgGs heq1
          have hg2 : goodStore m2.db := by
            intro k2
            rw [hgE]
            exact hgGs k2
          exact linkage_concl hg2 hroots hctr heq2

namespace SimplifiedDualLayerMptManager

theorem gc_certContent (m : SimplifiedDualLayerMptManager) (aid : Bytes) :
    (m.get_or_create_certificate_tree aid).2.certContent aid =
      m.certContent aid := by
  obtain ⟨_, hgc2, _, _, _, _, hgc7⟩ := get_or_create_fields m aid
  rw [certContent, certContent, hgc2, hgc7]

theorem issue_cid_eq {m m' : SimplifiedDualLayerMptManager}
    {aid holder : Bytes} {rt : RightType} {vu : Option Nat} {now cid : Nat}
    {r : Bytes}
    (hok : m.issue_certificate aid holder rt vu now = (.ok (cid, r), m')) :
    cid = maxCertIdIn (m.certContent aid) + 1 := by
  rw [issue_certificate] at hok
  split at hok
  · rw [Prod.mk.injEq] at hok
    cases hok.1
  · rename_i asset heq_ga
    split at hok
    · rw [Prod.mk.injEq] at hok
      cases hok.1
    · simp only [] at hok
      split at hok
      · rw [Prod.mk.injEq] at hok
        cases hok.1
      · rename_i ncr m2 heq1
        split at hok
        · rw [Prod.mk.injEq] at hok
          cases hok.1
        · rw [Prod.mk.injEq] at hok
          have hpair := Except.ok.inj hok.1
          have hcid : (m.get_next_certificate_id aid).1 = cid :=
            (Prod.ext_iff.mp hpair).1
          rw [← hcid]
          show maxCertIdIn (AssetTrie.mk
              (m.get_or_create_certificate_tree aid).2.db
              (m.get_or_create_certificate_tree aid).1).iter_all + 1 = _
          obtain ⟨hgc1, hgc2, _⟩ := get_or_create_fields m aid
          rw [hgc1, hgc2, certContent]

theorem isEmpty_true_iff {α : Type} (l : List α) :
    l.isEmpty = true ↔ l = [] := by
  cases l <;> simp

theorem revoke_content {m m' : SimplifiedDualLayerMptManager}
    {aid rv : Bytes} {cid now : Nat} {r : Bytes} (hg : goodStore m.db)
    (hok : m.revoke_certificate aid cid rv now = (.ok r, m')) :
    m'.certContent aid =
      removeKeys (m.certContent aid) [make_certificate_key cid] ∧
    goodStore m'.db := by
  rw [revoke_certificate] at hok
  split at hok
  · rw [Prod.mk.injEq] at hok
    cases hok.1
  · rename_i asset heq_ga
    simp only [] at hok
    split at hok
    · rw [Prod.mk.injEq] at hok
      cases hok.1
    · rename_i cert heq_gc
      split at hok
      · rw [Prod.mk.injEq] at hok
        cases hok.1
      · split at hok
        · rw [Prod.mk.injEq] at hok
          cases hok.1
        · rename_i ncr m2 heq1
          split at hok
          · rw [Prod.mk.injEq] at hok
            cases hok.1
          · rename_i u m3 heq2
            rw [Prod.mk.injEq] at hok
            obtain ⟨h1, h2⟩ := hok
            subst h2
            have hr : ncr = r := Except.ok.inj h1
            subst hr
            cases u
            have hgGs : goodStore (m.get_certificate_state aid cid).2.db := by
              rw [get_certificate_state_snd]
              rw [(get_or_create_fields m aid).2.1]
              exact hg
            obtain ⟨_, hctr2, _, _, _, _, hgE2, _, hcc2, hzE2, hread2, hrootc2⟩ :=
              remove_certificate_ok hgGs heq1
            rw [get_certificate_state_snd, gc_certContent] at hcc2 hzE2 hread2 hrootc2
            have hg2 : goodStore m2.db := by
              intro k2
              rw [hgE2]
              exact hgGs k2
            obtain ⟨_, htrees3, _, _, _, hgE3, hpres3⟩ := update_root_ok hg2 heq2
            have hg3 : goodStore m3.db := by
              intro k2
              rw [hgE3]
              exact hg2 k2
            refine ⟨?_, hg3⟩
            have hctr3 : m3.certTreeRoot aid = ncr := by
              rw [certTreeRoot, htrees3]
              rw [certTreeRoot] at hctr2
              exact hctr2
            rw [certContent, hctr3]
            by_cases hzr : isZeroBytes ncr = true
            · have hz2 : isZeroBytes (AssetTrie.mk m3.db ncr).root = true := hzr
              rw [iter_all_zero hz2]
              have hE : (removeKeys ((m.certContent aid))
                  [make_certificate_key cid]).isEmpty = true := by
                rw [← hzE2, hzr]
              exact ((isEmpty_true_iff _).mp hE).symm
            · have hzr' : isZeroBytes ncr = false := by simpa using hzr
              have hl2 := hread2 hzr'
              have hc2 := hrootc2 hzr'
              have hl3 : lookupA m3.db.data ncr =
                  some (removeKeys (m.certContent aid)
                    [make_certificate_key cid]) :=
                hpres3 _ _ hl2 hc2
              exact @iter_all_read ⟨m3.db, ncr⟩ hg3 hzr' _ hl3

end SimplifiedDualLayerMptManager

open SimplifiedDualLayerMptManager in
/-- C8 amended: get_next_certificate_id makes issue_certificate assign one plus
the largest 4-byte little-endian id present in the asset's child trie, hence 1
for an empty child trie and for the first certificate of any asset; after
revoking the certificate holding the current maximum id M, the next issuance
receives one plus the maximum of the remaining ids, which reuses M exactly
when that remaining maximum is M - 1 (no gap right below M); with a gap the
revoked id is not reused. -/
theorem spec_C8_amended :
    (∀ (m m' : SimplifiedDualLayerMptManager) (aid holder : Bytes)
       (rt : RightType) (vu : Option Nat) (now cid : Nat) (r : Bytes),
       m.certContent aid = [] →
       m.issue_certificate aid holder rt vu now = (.ok (cid, r), m') →
       cid = 1) ∧
    (∀ (m m' : SimplifiedDualLayerMptManager) (aid holder : Bytes)
       (rt : RightType) (vu : Option Nat) (now cid : Nat) (r : Bytes),
       m.issue_certificate aid holder rt vu now = (.ok (cid, r), m') →
       cid = maxCertIdIn (m.certContent aid) + 1) ∧
    (∀ (m m1 m2 : SimplifiedDualLayerMptManager) (aid rv holder : Bytes)
       (mx now now2 : Nat) (rt : RightType) (vu : Option Nat) (r1 r2 : Bytes)
       (cid2 : Nat),
       goodStore m.db → 1 ≤ mx →
       mx = maxCertIdIn (m.certContent aid) →
       m.revoke_certificate aid mx rv now = (.ok r1, m1) →
       m1.issue_certificate aid holder rt vu now2 = (.ok (cid2, r2), m2) →
       cid2 = maxCertIdIn (removeKeys (m.certContent aid)
           [make_certificate_key mx]) + 1 ∧
       (cid2 = mx ↔ maxCertIdIn (removeKeys (m.certContent aid)
           [make_certificate_key mx]) = mx - 1)) := by
  refine ⟨?_, ?_, ?_⟩
  · intro m m' aid holder rt vu now cid r hemp hok
    have := issue_cid_eq hok
    rw [hemp] at this
    exact this
  · intro m m' aid holder rt vu now cid r hok
    exact issue_cid_eq hok
  · intro m m1 m2 aid rv holder mx now now2 rt vu r1 r2 cid2 hg hmx1 hmax
      hrev hiss
    obtain ⟨hcc, _⟩ := revoke_content hg hrev
    have hcid := issue_cid_eq hiss
    rw [hcc] at hcid
    refine ⟨hcid, ?_⟩
    omega

set_option maxRecDepth 100000 in
/-- C8 counterexample to the claim as stated: with certificates 1 and 3
present (after 1, 2, 3 were issued and 2 revoked), the maximum id is 3;
revoking it succeeds, yet the next issue_certificate call returns id 2, not
the revoked id 3. -/
theorem spec_C8_cex :
    maxCertIdIn (mgrC4.certContent [5]) = 3 ∧
    (mgrC4.revoke_certificate [5] 3 [9] 5).1 =
      .ok (mgrC5.get_certificate_root [5]) ∧
    (issueC6.1.map Prod.fst) = .ok 2 ∧
    (2 : Nat) ≠ 3 := by
  exact ⟨by decide, rfl, rfl, by decide⟩

set_option maxRecDepth 100000 in
/-- Witness for the amended C8: revoking the maximum id 3 from the contiguous
set 1, 2, 3 makes the next issuance return 2 + 1 = 3, reusing the id because
the remaining maximum is exactly 3 - 1. -/
theorem spec_C8_witness :
    (3 = maxCertIdIn (removeKeys (mgrC3.certContent [5])
        [make_certificate_key 3]) + 1) ∧
    (3 = 3 ↔ maxCertIdIn (removeKeys (mgrC3.certContent [5])
        [make_certificate_key 3]) = 3 - 1) :=
  spec_C8_amended.2.2 mgrC3 mgrD4 issueD5.2 [5] [9] [25] 3 4 5
    RightType.Usage none (mgrD4.get_certificate_root [5])
    (issueD5.2.get_certificate_root [5]) 3
    (fun _ => rfl) (by decide) (by decide) rfl rfl

open SimplifiedDualLayerMptManager in
/-- C10: register_asset stores the caller's record with status forced to
Active, children_root forced to all-zero, token_id set to the freshly
allocated id, updated_at set to the call time, and all other fields as
supplied; the content-derived asset id is computed only when the supplied
asset_id is all-zero, so a non-zero supplied asset_id is stored as-is. -/
theorem spec_C10 (m m' : SimplifiedDualLayerMptManager) (asset : DataAsset)
    (now : Nat) (aid root : Bytes) (hg : goodStore m.db)
    (hok : m.register_asset asset now = (.ok (aid, root), m')) :
    aid = (if asset.asset_id = zeroRoot
           then generate_asset_id asset.owner asset.timestamp asset.raw_data_hash
           else asset.asset_id) ∧
    m'.get_asset_state_by_id aid =
      some { asset with
             asset_id := (if asset.asset_id = zeroRoot
                          then generate_asset_id asset.owner asset.timestamp
                                 asset.raw_data_hash
                          else asset.asset_id),
             token_id := m.next_token_id,
             status := AssetStatus.Active,
             children_root := zeroRoot,
             updated_at := now } := by
  rw [SimplifiedDualLayerMptManager.register_asset] at hok
  simp only [] at hok
  by_cases hid : asset.asset_id = zeroRoot
  · rw [if_pos hid] at hok
    rw [if_pos hid]
    split at hok
    · rw [Prod.mk.injEq] at hok
      cases hok.1
    · rename_i newroot m4 heq
      rw [Prod.mk.injEq] at hok
      obtain ⟨h1, h2⟩ := hok
      subst h2
      have hpair := Except.ok.inj h1
      have haid := (Prod.ext_iff.mp hpair).1
      simp only [] at haid
      have happ := fun hgx => insert_asset_ok hgx heq
      obtain ⟨hget, _, _, _, _, _, _⟩ := happ hg
      rw [← haid]
      exact ⟨rfl, hget⟩
  · rw [if_neg hid] at hok
    rw [if_neg hid]
    split at hok
    · rw [Prod.mk.injEq] at hok
      cases hok.1
    · rename_i newroot m4 heq
      rw [Prod.mk.injEq] at hok
      obtain ⟨h1, h2⟩ := hok
      subst h2
      have hpair := Except.ok.inj h1
      have haid := (Prod.ext_iff.mp hpair).1
      simp only [] at haid
      have happ := fun hgx => insert_asset_ok hgx heq
      obtain ⟨hget, _, _, _, _, _, _⟩ := happ hg
      rw [← haid]
      exact ⟨rfl, hget⟩

set_option maxRecDepth 100000 in
/-- Witness for C10: registering assetW (non-zero asset_id [5]) stores it
under [5] with token 0, Active status, zero children_root and updated_at 0,
leaving every other field as supplied. -/
theorem spec_C10_witness :
    ([5] : Bytes) = (if assetW.asset_id = zeroRoot
        then generate_asset_id assetW.owner assetW.timestamp assetW.raw_data_hash
        else assetW.asset_id) ∧
    mgrA.get_asset_state_by_id [5] =
      some { assetW with
             asset_id := (if assetW.asset_id = zeroRoot
                          then generate_asset_id assetW.owner assetW.timestamp
                                 assetW.raw_data_hash
                          else assetW.asset_id),
             token_id := (SimplifiedDualLayerMptManager.new db0).next_token_id,
             status := AssetStatus.Active,
             children_root := zeroRoot,
             updated_at := 0 } :=
  spec_C10 (SimplifiedDualLayerMptManager.new db0) mgrA assetW 0 [5] rootA
    (fun _ => rfl) rfl

set_option maxRecDepth 100000 in
/-- Witness for C6 at a concrete issuance: after issuing certificate 1 for
asset [5], the stored asset record's children_root equals the manager's
recomputed child-trie root, which is the root the call returned. -/
theorem spec_C6_witness :
    (mgrB.get_asset_state_by_id [5]).map (fun x => x.children_root) =
      some (mgrB.get_certificate_root [5]) ∧
    mgrB.get_certificate_root [5] = rootB ∧
    mgrB.certTreeRoot [5] = rootB :=
  spec_C6.1 mgrA mgrB [5] [21] RightType.Usage none 1 1 rootB
    (fun _ => rfl) rfl
